import Mathlib

/-!
Verification development for the som-rs front end: bytecode encode/decode
(`src/interpreter/bytecode.rs`), the lexer (`src/compiler/lexer.rs`) and the
parser (`src/compiler/parser.rs`), shallowly embedded in Lean.

Modelling conventions:
* Rust `u8` bytes are modelled as `Nat`; the wellformedness predicates record
  the `≤ 255` range where a claim quantifies over machine-level values.
  No arithmetic is performed on bytes, so no overflow can occur.
* A Rust iterator over bytes is modelled as a `List Nat` holding the bytes not
  yet consumed; pulling from the iterator is pattern matching on the list.
* Loops in the Rust source that are not structurally recursive are given an
  explicit fuel parameter; `none` (or a dedicated marker) is returned when the
  fuel runs out, so genuine divergence shows up as failure at every fuel.
-/

namespace SomRs

/-! ## Bytecode (`src/interpreter/bytecode.rs`)

`enum Bytecode`: 16 opcodes, each with zero, one or two single-byte
arguments. -/

inductive Bytecode where
  | Halt
  | Dup
  | PushLocal (index context : Nat)
  | PushArgument (index context : Nat)
  | PushField (index : Nat)
  | PushBlock (index : Nat)
  | PushConstant (index : Nat)
  | PushGlobal (index : Nat)
  | Pop
  | PopLocal (index context : Nat)
  | PopArgument (index context : Nat)
  | PopField (index : Nat)
  | Send (index : Nat)
  | SuperSend (index : Nat)
  | ReturnLocal
  | ReturnNonLocal
deriving DecidableEq, Repr

/-- `impl From<Bytecode> for Vec<u8>`: tag byte followed by the argument
bytes in declaration order. -/
def Bytecode.toBytes : Bytecode → List Nat
  | .Halt => [0]
  | .Dup => [1]
  | .PushLocal index context => [2, index, context]
  | .PushArgument index context => [3, index, context]
  | .PushField index => [4, index]
  | .PushBlock index => [5, index]
  | .PushConstant index => [6, index]
  | .PushGlobal index => [7, index]
  | .Pop => [8]
  | .PopLocal index context => [9, index, context]
  | .PopArgument index context => [10, index, context]
  | .PopField index => [11, index]
  | .Send index => [12, index]
  | .SuperSend index => [13, index]
  | .ReturnLocal => [14]
  | .ReturnNonLocal => [15]

/-- All argument fields are in `u8` range (they are `u8` in the source). -/
def Bytecode.wfBytes : Bytecode → Bool
  | .Halt | .Dup | .Pop | .ReturnLocal | .ReturnNonLocal => true
  | .PushLocal index context | .PushArgument index context
  | .PopLocal index context | .PopArgument index context =>
      index ≤ 255 && context ≤ 255
  | .PushField index | .PushBlock index | .PushConstant index
  | .PushGlobal index | .PopField index | .Send index | .SuperSend index =>
      index ≤ 255

/-- `enum BytecodeIteratorError`. -/
inductive BytecodeIteratorError where
  | UnknownBytecode (code : Nat)
  | InsufficientArguments
deriving DecidableEq, Repr

/-- One `read_argument()?` step for a one-argument opcode: pull one byte from
the iterator, `InsufficientArguments` if the bytes ran out.  The second
component is the iterator's remaining bytes. -/
def read1 (mk : Nat → Bytecode) :
    List Nat → Except BytecodeIteratorError (Option Bytecode) × List Nat
  | [] => (.error .InsufficientArguments, [])
  | a :: r => (.ok (some (mk a)), r)

/-- Two `read_argument()?` steps for a two-argument opcode (`index` first,
then `context`). -/
def read2 (mk : Nat → Nat → Bytecode) :
    List Nat → Except BytecodeIteratorError (Option Bytecode) × List Nat
  | [] => (.error .InsufficientArguments, [])
  | [_] => (.error .InsufficientArguments, [])
  | a :: b :: r => (.ok (some (mk a b)), r)

/-- The body of `read_bytecode`'s `match code` dispatch: opcode byte `code`,
then argument reads from the remaining bytes `rest`; an opcode byte not in
`0..=15` is `UnknownBytecode`. -/
def readBytecodeDispatch (code : Nat) (rest : List Nat) :
    Except BytecodeIteratorError (Option Bytecode) × List Nat :=
    if code = 0 then (.ok (some .Halt), rest)
    else if code = 1 then (.ok (some .Dup), rest)
    else if code = 2 then read2 .PushLocal rest
    else if code = 3 then read2 .PushArgument rest
    else if code = 4 then read1 .PushField rest
    else if code = 5 then read1 .PushBlock rest
    else if code = 6 then read1 .PushConstant rest
    else if code = 7 then read1 .PushGlobal rest
    else if code = 8 then (.ok (some .Pop), rest)
    else if code = 9 then read2 .PopLocal rest
    else if code = 10 then read2 .PopArgument rest
    else if code = 11 then read1 .PopField rest
    else if code = 12 then read1 .Send rest
    else if code = 13 then read1 .SuperSend rest
    else if code = 14 then (.ok (some .ReturnLocal), rest)
    else if code = 15 then (.ok (some .ReturnNonLocal), rest)
    else (.error (.UnknownBytecode code), rest)

/-- `BytecodeIterator::read_bytecode`: `Ok(None)` on an exhausted iterator,
otherwise dispatch on the opcode byte.  The second component is the state of
the inner byte iterator afterwards (the bytes not yet consumed). -/
def readBytecode : List Nat → Except BytecodeIteratorError (Option Bytecode) × List Nat
  | [] => (.ok none, [])
  | code :: rest => readBytecodeDispatch code rest

theorem read1_snd_lt (mk : Nat → Bytecode) (r : List Nat) :
    (read1 mk r).2.length < r.length + 1 := by
  cases r with
  | nil => simp [read1]
  | cons a r => simp [read1]; omega

theorem read2_snd_lt (mk : Nat → Nat → Bytecode) (r : List Nat) :
    (read2 mk r).2.length < r.length + 1 := by
  match r with
  | [] => simp [read2]
  | [_] => simp [read2]
  | _ :: _ :: _ => simp [read2]; omega

set_option maxHeartbeats 2000000 in
theorem readBytecodeDispatch_ge16 (code : Nat) (rest : List Nat) (h : 16 ≤ code) :
    readBytecodeDispatch code rest = (.error (.UnknownBytecode code), rest) := by
  unfold readBytecodeDispatch
  iterate 16 rw [if_neg (show ¬_ from by omega)]

theorem readBytecode_snd_lt (l : List Nat) (h : (readBytecode l).1 ≠ .ok none) :
    (readBytecode l).2.length < l.length := by
  rcases l with _ | ⟨code, rest⟩
  · exact absurd rfl h
  · show (readBytecodeDispatch code rest).2.length < rest.length + 1
    by_cases hc : code < 16
    · interval_cases code
      · exact Nat.lt_succ_self _
      · exact Nat.lt_succ_self _
      · exact read2_snd_lt _ rest
      · exact read2_snd_lt _ rest
      · exact read1_snd_lt _ rest
      · exact read1_snd_lt _ rest
      · exact read1_snd_lt _ rest
      · exact read1_snd_lt _ rest
      · exact Nat.lt_succ_self _
      · exact read2_snd_lt _ rest
      · exact read2_snd_lt _ rest
      · exact read1_snd_lt _ rest
      · exact read1_snd_lt _ rest
      · exact read1_snd_lt _ rest
      · exact Nat.lt_succ_self _
      · exact Nat.lt_succ_self _
    · rw [readBytecodeDispatch_ge16 code rest (by omega)]
      exact Nat.lt_succ_self _

/-- `impl Iterator for BytecodeIterator`: the full item sequence the iterator
yields when polled to exhaustion (each `Some(item)` in order, stopping at the
first `None`). -/
def decodeStream (l : List Nat) : List (Except BytecodeIteratorError Bytecode) :=
  match hrb : readBytecode l with
  | (.ok none, _) => []
  | (.ok (some b), rest) => .ok b :: decodeStream rest
  | (.error e, rest) => .error e :: decodeStream rest
termination_by l.length
decreasing_by
  · have := readBytecode_snd_lt l (by rw [hrb]; simp)
    rw [hrb] at this
    exact this
  · have := readBytecode_snd_lt l (by rw [hrb]; simp)
    rw [hrb] at this
    exact this

/-- Number of argument bytes each opcode tag `< 16` requires. -/
def opcodeArity (code : Nat) : Nat :=
  if code = 2 ∨ code = 3 ∨ code = 9 ∨ code = 10 then 2
  else if code = 4 ∨ code = 5 ∨ code = 6 ∨ code = 7 ∨ code = 11 ∨ code = 12 ∨ code = 13 then 1
  else 0


set_option maxHeartbeats 2000000 in
theorem dispatch_lt16_not_none (code : Nat) (rest : List Nat) (hc : code < 16) :
    (readBytecodeDispatch code rest).1 ≠ .ok none := by
  interval_cases code <;>
    rcases rest with _ | ⟨a, _ | ⟨b, r⟩⟩ <;>
      simp [readBytecodeDispatch, read1, read2]

set_option maxHeartbeats 2000000 in
theorem dispatch_lt16_not_unknown (code : Nat) (rest : List Nat) (hc : code < 16)
    (c : Nat) : (readBytecodeDispatch code rest).1 ≠ .error (.UnknownBytecode c) := by
  interval_cases code <;>
    rcases rest with _ | ⟨a, _ | ⟨b, r⟩⟩ <;>
      simp [readBytecodeDispatch, read1, read2]

set_option maxHeartbeats 2000000 in
theorem dispatch_insufficient_iff (code : Nat) (rest : List Nat) (hc : code < 16) :
    (readBytecodeDispatch code rest).1 = .error .InsufficientArguments ↔
      rest.length < opcodeArity code := by
  interval_cases code <;>
    rcases rest with _ | ⟨a, _ | ⟨b, r⟩⟩ <;>
      simp [readBytecodeDispatch, read1, read2, opcodeArity]

set_option maxHeartbeats 2000000 in
theorem dispatch_insufficient_state (code : Nat) (rest : List Nat) (hc : code < 16)
    (h : (readBytecodeDispatch code rest).1 = .error .InsufficientArguments) :
    (readBytecodeDispatch code rest).2 = [] := by
  interval_cases code <;>
    rcases rest with _ | ⟨a, _ | ⟨b, r⟩⟩ <;>
      simp_all [readBytecodeDispatch, read1, read2]


theorem decodeStream_nil_eq : decodeStream [] = [] := by
  rw [decodeStream]
  rfl

theorem decodeStream_ok_eq (l : List Nat) (b : Bytecode) (rest : List Nat)
    (h : readBytecode l = (.ok (some b), rest)) :
    decodeStream l = .ok b :: decodeStream rest := by
  rw [decodeStream]
  split
  · next heq => rw [h] at heq; cases heq
  · next b2 r2 heq =>
      rw [h] at heq
      cases heq
      rfl
  · next e r2 heq => rw [h] at heq; cases heq

theorem decodeStream_error_eq (l : List Nat) (e : BytecodeIteratorError) (rest : List Nat)
    (h : readBytecode l = (.error e, rest)) :
    decodeStream l = .error e :: decodeStream rest := by
  rw [decodeStream]
  split
  · next heq => rw [h] at heq; cases heq
  · next b2 r2 heq => rw [h] at heq; cases heq
  · next e2 r2 heq =>
      rw [h] at heq
      cases heq
      rfl


theorem decodeStream_none_eq (l : List Nat) (rest : List Nat)
    (h : readBytecode l = (.ok none, rest)) : decodeStream l = [] := by
  rw [decodeStream]
  split
  · rfl
  · next b2 r2 heq => rw [h] at heq; cases heq
  · next e2 r2 heq => rw [h] at heq; cases heq

theorem readBytecode_IA_state (l : List Nat)
    (h : (readBytecode l).1 = .error .InsufficientArguments) :
    (readBytecode l).2 = [] := by
  rcases l with _ | ⟨code, rest⟩
  · cases h
  · by_cases hc : code < 16
    · exact dispatch_insufficient_state code rest hc h
    · have hge := readBytecodeDispatch_ge16 code rest (by omega)
      have h' : (readBytecodeDispatch code rest).1 = .error .InsufficientArguments := h
      rw [hge] at h'
      cases h'

theorem decodeStream_IA_last_aux :
    ∀ (n : Nat) (l : List Nat), l.length ≤ n →
      .error .InsufficientArguments ∈ decodeStream l →
      (decodeStream l).getLast? = some (.error .InsufficientArguments) := by
  intro n
  induction n with
  | zero =>
    intro l hl hmem
    have hnil : l = [] := List.length_eq_zero.mp (Nat.le_zero.mp hl)
    rw [hnil, decodeStream_nil_eq] at hmem
    cases hmem
  | succ n ih =>
    intro l hl hmem
    rcases hcase : readBytecode l with ⟨res, rest⟩
    have hlt : res ≠ .ok none → rest.length ≤ n := by
      intro hne
      have := readBytecode_snd_lt l (by rw [hcase]; exact hne)
      rw [hcase] at this
      simp only at this
      omega
    match res with
    | .ok none =>
      rw [decodeStream_none_eq l rest hcase] at hmem
      cases hmem
    | .ok (some b) =>
      have heq := decodeStream_ok_eq l b rest hcase
      rw [heq] at hmem ⊢
      have hmem' : .error .InsufficientArguments ∈ decodeStream rest := by
        rcases List.mem_cons.mp hmem with h | h
        · cases h
        · exact h
      have hne : decodeStream rest ≠ [] := by
        intro h0
        rw [h0] at hmem'
        cases hmem'
      have htail := ih rest (hlt (by intro h0; cases h0)) hmem'
      rcases hds : decodeStream rest with _ | ⟨x, xs⟩
      · exact absurd hds hne
      · rw [hds] at htail
        rw [List.getLast?_cons_cons, htail]
    | .error e =>
      have heq := decodeStream_error_eq l e rest hcase
      match e with
      | .InsufficientArguments =>
        have hrest : rest = [] := by
          have := readBytecode_IA_state l (by rw [hcase])
          rw [hcase] at this
          exact this
        rw [heq, hrest, decodeStream_nil_eq]
        rfl
      | .UnknownBytecode c =>
        rw [heq] at hmem ⊢
        have hmem' : .error .InsufficientArguments ∈ decodeStream rest := by
          rcases List.mem_cons.mp hmem with h | h
          · cases h
          · exact h
        have hne : decodeStream rest ≠ [] := by
          intro h0
          rw [h0] at hmem'
          cases hmem'
        have htail := ih rest (hlt (by intro h0; cases h0)) hmem'
        rcases hds : decodeStream rest with _ | ⟨x, xs⟩
        · exact absurd hds hne
        · rw [hds] at htail
          rw [List.getLast?_cons_cons, htail]

/-- C1: encoding any (u8-ranged) bytecode instruction and then decoding the
byte sequence yields back the same instruction, consuming exactly the encoded
bytes and leaving any following bytes untouched. -/
theorem bytecode_encode_decode_roundtrip (b : Bytecode) (tail : List Nat)
    (_hwf : b.wfBytes = true) :
    readBytecode (b.toBytes ++ tail) = (.ok (some b), tail) := by
  cases b <;> rfl

/-- Witness for C1 at the spec's example `PushLocal{index:1, context:2}`. -/
theorem bytecode_encode_decode_roundtrip_witness :
    (Bytecode.PushLocal 1 2).wfBytes = true ∧
      readBytecode ((Bytecode.PushLocal 1 2).toBytes ++ [7]) =
        (.ok (some (.PushLocal 1 2)), [7]) :=
  ⟨by decide, bytecode_encode_decode_roundtrip (.PushLocal 1 2) [7] (by decide)⟩

/-- C2 counterexample: after yielding the unknown-bytecode error for byte 16,
the iterator is polled again and decodes `Halt` from the following byte, so
the unknown-bytecode error is not terminal for the item sequence. -/
theorem bytecode_unknown_error_not_terminal_counterexample :
    decodeStream [16, 0] = [.error (.UnknownBytecode 16), .ok .Halt] := by
  rw [decodeStream_error_eq [16, 0] (.UnknownBytecode 16) [0] rfl,
    decodeStream_ok_eq [0] .Halt [] rfl, decodeStream_nil_eq]

/-- C2 (amended): the decoder yields unknown-bytecode exactly on an opcode
byte `≥ 16`, insufficient-arguments exactly when the bytes run out inside an
argument read, ends normally exactly on empty input, and the
insufficient-arguments error (input exhausted) is terminal for the item
sequence. -/
theorem bytecode_decode_error_characterization (l : List Nat) :
    ((readBytecode l).1 = .ok none ↔ l = []) ∧
    (∀ code rest, l = code :: rest → 16 ≤ code →
      readBytecode l = (.error (.UnknownBytecode code), rest)) ∧
    (∀ c, (readBytecode l).1 = .error (.UnknownBytecode c) →
      ∃ rest, l = c :: rest ∧ 16 ≤ c) ∧
    ((readBytecode l).1 = .error .InsufficientArguments ↔
      ∃ code rest, l = code :: rest ∧ code < 16 ∧ rest.length < opcodeArity code) ∧
    ((readBytecode l).1 = .error .InsufficientArguments → (readBytecode l).2 = []) ∧
    (.error .InsufficientArguments ∈ decodeStream l →
      (decodeStream l).getLast? = some (.error .InsufficientArguments)) := by
  refine ⟨?_, ?_, ?_, ?_, readBytecode_IA_state l, decodeStream_IA_last_aux l.length l le_rfl⟩
  · constructor
    · intro h
      rcases l with _ | ⟨code, rest⟩
      · rfl
      · by_cases hc : code < 16
        · exact absurd h (dispatch_lt16_not_none code rest hc)
        · have h' : (readBytecodeDispatch code rest).1 = .ok none := h
          rw [readBytecodeDispatch_ge16 code rest (by omega)] at h'
          cases h'
    · intro h
      rw [h]
      rfl
  · intro code rest hl hge
    subst hl
    show readBytecodeDispatch code rest = _
    exact readBytecodeDispatch_ge16 code rest hge
  · intro c h
    rcases l with _ | ⟨code, rest⟩
    · cases h
    · by_cases hc : code < 16
      · exact absurd h (dispatch_lt16_not_unknown code rest hc c)
      · have h' : (readBytecodeDispatch code rest).1 = .error (.UnknownBytecode c) := h
        rw [readBytecodeDispatch_ge16 code rest (by omega)] at h'
        cases h'
        exact ⟨rest, rfl, by omega⟩
  · constructor
    · intro h
      rcases l with _ | ⟨code, rest⟩
      · cases h
      · by_cases hc : code < 16
        · exact ⟨code, rest, rfl, hc, (dispatch_insufficient_iff code rest hc).mp h⟩
        · have h' : (readBytecodeDispatch code rest).1 = .error .InsufficientArguments := h
          rw [readBytecodeDispatch_ge16 code rest (by omega)] at h'
          cases h'
    · rintro ⟨code, rest, hl, hc, hlen⟩
      subst hl
      exact (dispatch_insufficient_iff code rest hc).mpr hlen

/-- Witness for C2 at the spec's example `[3, 0]`: a two-argument opcode given
one argument byte fails with insufficient arguments. -/
theorem bytecode_decode_error_characterization_witness :
    (readBytecode [3, 0]).1 = .error .InsufficientArguments :=
  ((bytecode_decode_error_characterization [3, 0]).2.2.2.1).mpr
    ⟨3, [0], rfl, by omega, by decide⟩


/-! ## Tokens and locations (`src/compiler/token.rs`, `src/compiler/mod.rs`) -/

/-- `Location`: 1-indexed line, 0-indexed column; `Default` is `{1, 0}`. -/
structure Location where
  line : Nat
  column : Nat
deriving DecidableEq, Repr

def Location.default : Location := ⟨1, 0⟩

/-- `enum TokenKind`. -/
inductive TokenKind where
  | And
  | Assign
  | At
  | Colon
  | Comma
  | Divide
  | Double
  | EndBlock
  | EndTerm
  | Equal
  | Exit
  | Identifier
  | Integer
  | Keyword
  | KeywordSequence
  | Less
  | Minus
  | Modulus
  | More
  | NewBlock
  | NewTerm
  | Not
  | OperatorSequence
  | Or
  | Percent
  | Period
  | Plus
  | Pound
  | Primitive
  | Separator
  | Star
  | String
deriving DecidableEq, Repr

/-- `TokenKind::is_binary_operator` (membership in `BINARY_OPERATORS`). -/
def TokenKind.is_binary_operator : TokenKind → Bool
  | .And | .At | .Comma | .Divide | .Equal | .Less | .Minus
  | .Modulus | .More | .Not | .Or | .Percent | .Plus | .Star => true
  | _ => false

/-- `struct Token`. -/
structure Token where
  kind : TokenKind
  text : Option String
  location : Location
deriving DecidableEq, Repr

/-! ## Lexer (`src/compiler/lexer.rs`)

The byte reader behind `BufRead` is modelled as the list of lines that
successive `read_line` calls produce (each line includes its trailing
newline; the last may lack one).  Character positions index characters; the
source indexes the buffer by byte for the bounds test and by char for
`peek`, which coincide on ASCII input, and all inputs used in the claims are
ASCII. -/

/-- The `IsOperatorExt::is_operator` character class. -/
def is_operator (c : Char) : Bool :=
  c = '~' || c = '&' || c = '|' || c = '*' || c = '/' || c = '\\' || c = '+' ||
  c = '=' || c = '>' || c = '<' || c = ',' || c = '@' || c = '%' || c = '-'

/-- Rust `char::is_whitespace`: true exactly on the Unicode `White_Space`
code points (U+0009..U+000D, U+0020, U+0085, U+00A0, U+1680,
U+2000..U+200A, U+2028, U+2029, U+202F, U+205F, U+3000). -/
def is_whitespace (c : Char) : Bool :=
  (0x09 ≤ c.toNat && c.toNat ≤ 0x0D) || c.toNat = 0x20 || c.toNat = 0x85 ||
  c.toNat = 0xA0 || c.toNat = 0x1680 ||
  (0x2000 ≤ c.toNat && c.toNat ≤ 0x200A) || c.toNat = 0x2028 ||
  c.toNat = 0x2029 || c.toNat = 0x202F || c.toNat = 0x205F || c.toNat = 0x3000

/-- `struct PeekableBuffer`: `rest` is the sequence of lines the reader has
not yet produced; `buffer` is the current line. -/
structure PeekableBuffer where
  rest : List (List Char)
  position : Nat
  line : Nat
  buffer : List Char
deriving DecidableEq, Repr

/-- `PeekableBuffer::fill_buffer`: when the cursor has run off the current
line, clear the buffer, `read_line` the next one (a no-op at end of input),
and bump the line counter. -/
def fill_buffer (b : PeekableBuffer) : PeekableBuffer :=
  if b.buffer.length ≤ b.position then
    match b.rest with
    | [] => { b with buffer := [], line := b.line + 1, position := 0 }
    | l :: ls => { rest := ls, buffer := l, line := b.line + 1, position := 0 }
  else b

/-- `PeekableBuffer::peek`: fill, then read the char under the cursor.  The
returned buffer is the state after the fill (peek takes `&mut self`). -/
def peek (b : PeekableBuffer) : Option Char × PeekableBuffer :=
  let b1 := fill_buffer b
  (b1.buffer[b1.position]?, b1)

/-- `PeekableBuffer::consume`: advance the cursor, then fill. -/
def consume (b : PeekableBuffer) : PeekableBuffer :=
  fill_buffer { b with position := b.position + 1 }

/-- `PeekableBuffer::current_location`. -/
def current_location (b : PeekableBuffer) : Location :=
  ⟨b.line, b.position⟩

/-- One `read_line` step: the first line (including its newline) and the
remaining characters. -/
def splitLine : List Char → List Char × List Char
  | [] => ([], [])
  | c :: cs =>
    if c = '\n' then ([c], cs)
    else
      let p := splitLine cs
      (c :: p.1, p.2)

def linesOfAux : Nat → List Char → List (List Char)
  | 0, _ => []
  | _, [] => []
  | n + 1, s =>
    let p := splitLine s
    p.1 :: linesOfAux n p.2

/-- The sequence of lines `read_line` produces on the given character
source.  Each step consumes at least one character, so `s.length` steps
suffice. -/
def linesOf (s : List Char) : List (List Char) :=
  linesOfAux s.length s

/-- `struct Lexer`: the peekable buffer plus the pushback queue
(`VecDeque<Token>`; `push_back`/`pop_front` only). -/
structure Lexer where
  buffer : PeekableBuffer
  queue : List Token
deriving DecidableEq, Repr

/-- `Lexer::new` on a character source. -/
def Lexer.new (input : List Char) : Lexer :=
  ⟨⟨linesOf input, 0, 0, []⟩, []⟩

/-- `Lexer::skip_comment`, fuelled: one fuel unit per loop iteration.  The
loop consumes the opening `"` (and each following char) and stops only after
consuming a closing `"`; at end of input `peek` keeps returning `None`, so
the loop never exits — `none` at every fuel. -/
def skip_comment : Nat → PeekableBuffer → Option PeekableBuffer
  | 0, _ => none
  | fuel + 1, b =>
    let b1 := consume b
    match peek b1 with
    | (some '"', b2) => some (consume b2)
    | (_, b2) => skip_comment fuel b2

/-- The whitespace/comment-skipping loop at the top of `Lexer::read_token`. -/
def skip_whitespace_comments : Nat → PeekableBuffer → Option PeekableBuffer
  | 0, _ => none
  | fuel + 1, b =>
    match peek b with
    | (some c, b1) =>
      if c = '"' then
        match skip_comment fuel b1 with
        | none => none
        | some b2 => skip_whitespace_comments fuel b2
      else if is_whitespace c then skip_whitespace_comments fuel (consume b1)
      else some b1
    | (none, b1) => some b1

/-- The shape shared by the lexer's greedy scanning loops
(`read_identifier`, `read_number`, `read_operator`): while the peeked char
satisfies the class, consume it and append it to the accumulator; stop
(without consuming) at the first char outside the class or at end of
input. -/
def class_run (pred : Char → Bool) : Nat → PeekableBuffer → List Char →
    Option (List Char × PeekableBuffer)
  | 0, _, _ => none
  | fuel + 1, b, acc =>
    match peek b with
    | (some c, b1) =>
      if pred c then class_run pred fuel (consume b1) (acc ++ [c])
      else some (acc, b1)
    | (none, b1) => some (acc, b1)

/-- `Lexer::read_symbol`. -/
def read_symbol (kind : TokenKind) (lx : Lexer) : Option (Option Token × Lexer) :=
  let location := current_location lx.buffer
  some (some ⟨kind, none, location⟩, { lx with buffer := consume lx.buffer })

/-- `Lexer::read_colon`: `:=` is `Assign`, bare `:` is `Colon`. -/
def read_colon (lx : Lexer) : Option (Option Token × Lexer) :=
  let location := current_location lx.buffer
  let b := consume lx.buffer
  match peek b with
  | (some '=', b1) => some (some ⟨.Assign, none, location⟩, { lx with buffer := consume b1 })
  | (_, b1) => some (some ⟨.Colon, none, location⟩, { lx with buffer := b1 })

/-- `Lexer::read_identifier`: alphanumeric/underscore run; a following `:`
makes it a `Keyword`, and a letter after that extends to a
`KeywordSequence`; the bare text `primitive` is the `Primitive` token. -/
def read_identifier (fuel : Nat) (lx : Lexer) : Option (Option Token × Lexer) :=
  let location := current_location lx.buffer
  match class_run (fun c => c.isAlphanum || c = '_') fuel lx.buffer [] with
  | none => none
  | some (text, b) =>
    match peek b with
    | (some ':', b1) =>
      let text1 := text ++ [':']
      let b2 := consume b1
      match peek b2 with
      | (some c, b3) =>
        if c.isAlpha then
          match class_run (fun c => c.isAlpha || c = ':') fuel b3 text1 with
          | none => none
          | some (text2, b4) =>
            some (some ⟨.KeywordSequence, some (String.mk text2), location⟩,
              { lx with buffer := b4 })
        else some (some ⟨.Keyword, some (String.mk text1), location⟩, { lx with buffer := b3 })
      | (none, b3) =>
        some (some ⟨.Keyword, some (String.mk text1), location⟩, { lx with buffer := b3 })
    | (_, b1) =>
      if String.mk text = "primitive" then
        some (some ⟨.Primitive, none, location⟩, { lx with buffer := b1 })
      else some (some ⟨.Identifier, some (String.mk text), location⟩, { lx with buffer := b1 })

/-- `Lexer::read_number`: digit run; a `.` followed by a digit extends to a
`Double`; a `.` not followed by a digit is pushed back onto the queue as a
`Period` token and the digits become an `Integer`. -/
def read_number (fuel : Nat) (lx : Lexer) : Option (Option Token × Lexer) :=
  let location := current_location lx.buffer
  match class_run Char.isDigit fuel lx.buffer [] with
  | none => none
  | some (text, b) =>
    match peek b with
    | (some '.', b1) =>
      let period_location := current_location b1
      let b2 := consume b1
      match peek b2 with
      | (some c, b3) =>
        if c.isDigit then
          match class_run Char.isDigit fuel b3 (text ++ ['.']) with
          | none => none
          | some (text2, b4) =>
            some (some ⟨.Double, some (String.mk text2), location⟩, { lx with buffer := b4 })
        else
          some (some ⟨.Integer, some (String.mk text), location⟩,
            { lx with buffer := b3, queue := lx.queue ++ [⟨.Period, none, period_location⟩] })
      | (none, b3) =>
        some (some ⟨.Integer, some (String.mk text), location⟩,
          { lx with buffer := b3, queue := lx.queue ++ [⟨.Period, none, period_location⟩] })
    | (_, b1) =>
      some (some ⟨.Integer, some (String.mk text), location⟩, { lx with buffer := b1 })

/-- The single-character arm of `Lexer::read_operator`; the `_ => panic!`
default is unreachable because the run consists of operator characters, and
is modelled as `none`. -/
def single_operator_kind : Char → Option TokenKind
  | '~' => some .Not
  | '&' => some .And
  | '|' => some .Or
  | '*' => some .Star
  | '/' => some .Divide
  | '\\' => some .Modulus
  | '+' => some .Plus
  | '=' => some .Equal
  | '>' => some .More
  | '<' => some .Less
  | ',' => some .Comma
  | '@' => some .At
  | '%' => some .Percent
  | '-' => some .Minus
  | _ => none

/-- `Lexer::read_operator`: greedy operator-class run; length 1 maps through
`single_operator_kind`, an all-dash run of length ≥ 4 is `Separator`, any
other run of length ≥ 2 is `OperatorSequence`. -/
def read_operator (fuel : Nat) (lx : Lexer) : Option (Option Token × Lexer) :=
  let location := current_location lx.buffer
  match class_run is_operator fuel lx.buffer [] with
  | none => none
  | some (sequence, b) =>
    if sequence.length > 1 then
      if sequence.all (fun c => c = '-') && 4 ≤ sequence.length then
        some (some ⟨.Separator, none, location⟩, { lx with buffer := b })
      else
        some (some ⟨.OperatorSequence, some (String.mk sequence), location⟩,
          { lx with buffer := b })
    else
      match sequence with
      | [c] =>
        match single_operator_kind c with
        | some kind =>
          some (some ⟨kind, some (String.mk [c]), location⟩, { lx with buffer := b })
        | none => none
      | _ => none

/-- `Lexer::read_string_escape`. -/
def read_string_escape (b : PeekableBuffer) : Option Char × PeekableBuffer :=
  let p := peek b
  let b2 := consume p.2
  let r : Option Char :=
    match p.1 with
    | some '\'' => some '\''
    | some '\\' => some '\\'
    | some 'b' => some '\u0008'
    | some 'f' => some '\u000c'
    | some 'n' => some '\n'
    | some 'r' => some '\r'
    | some 't' => some '\t'
    | _ => none
  (r, b2)

/-- The body loop of `Lexer::read_string`: peek, consume, then either
process an escape, append the char, or stop at a closing quote or end of
input (the stopping char, or the slot past the end, is consumed). -/
def string_loop : Nat → PeekableBuffer → List Char →
    Option (List Char × PeekableBuffer)
  | 0, _, _ => none
  | fuel + 1, b, text =>
    let p := peek b
    let b2 := consume p.2
    match p.1 with
    | some c =>
      if c = '\\' then
        match read_string_escape b2 with
        | (some e, b3) => string_loop fuel b3 (text ++ [e])
        | (none, b3) => string_loop fuel b3 text
      else if c = '\'' then some (text, b2)
      else string_loop fuel b2 (text ++ [c])
    | none => some (text, b2)

/-- `Lexer::read_string`: consume the opening quote, run the loop, and
produce a `String` token from whatever was accumulated (also when the
closing quote was never found and the loop stopped at end of input). -/
def read_string (fuel : Nat) (lx : Lexer) : Option (Option Token × Lexer) :=
  let location := current_location lx.buffer
  let b := consume lx.buffer
  match string_loop fuel b [] with
  | none => none
  | some (text, b2) =>
    some (some ⟨.String, some (String.mk text), location⟩, { lx with buffer := b2 })

/-- `Lexer::read_token`: pop the queue if nonempty; otherwise skip
whitespace/comments and dispatch on the peeked character; a character no arm
recognizes falls through to `Ok(None)`, ending the token stream.  `none`
means the fuel ran out (the source diverges there). -/
def read_token (fuel : Nat) (lx : Lexer) : Option (Option Token × Lexer) :=
  match lx.queue with
  | t :: q => some (some t, { lx with queue := q })
  | [] =>
    match skip_whitespace_comments fuel lx.buffer with
    | none => none
    | some b0 =>
      match peek b0 with
      | (none, b1) => some (none, { lx with buffer := b1 })
      | (some c, b1) =>
        let lx1 : Lexer := { lx with buffer := b1 }
        if c = '[' then read_symbol .NewBlock lx1
        else if c = ']' then read_symbol .EndBlock lx1
        else if c = '(' then read_symbol .NewTerm lx1
        else if c = ')' then read_symbol .EndTerm lx1
        else if c = '#' then read_symbol .Pound lx1
        else if c = '^' then read_symbol .Exit lx1
        else if c = '.' then read_symbol .Period lx1
        else if c = ':' then read_colon lx1
        else if c = '\'' then read_string fuel lx1
        else if c.isDigit then read_number fuel lx1
        else if c.isAlpha then read_identifier fuel lx1
        else if is_operator c then read_operator fuel lx1
        else some (none, lx1)


/-! ### Buffer-state lemmas

All lexer claims concern single-line sources, so the reachable buffer states
have `rest = []`; these lemmas compute `fill_buffer`/`peek`/`consume` on such
states. -/

theorem drop_cons_lt {L : List Char} {p : Nat} {c : Char} {t : List Char}
    (h : L.drop p = c :: t) : p < L.length := by
  by_contra hp
  rw [List.drop_eq_nil_of_le (by omega)] at h
  cases h

theorem drop_cons_succ {L : List Char} {p : Nat} {c : Char} {t : List Char}
    (h : L.drop p = c :: t) : L.drop (p + 1) = t := by
  have h1 : L.drop (p + 1) = List.drop 1 (L.drop p) := by
    rw [List.drop_drop]
  rw [h1, h]
  rfl

theorem getElem?_of_drop {L : List Char} {p : Nat} {c : Char} {t : List Char}
    (h : L.drop p = c :: t) : L[p]? = some c := by
  have h1 : (L.drop p)[0]? = L[p + 0]? := List.getElem?_drop L p 0
  rw [h] at h1
  simpa using h1.symm

theorem fill_buffer_of_lt (L : List Char) (p n : Nat) (h : p < L.length) :
    fill_buffer ⟨[], p, n, L⟩ = ⟨[], p, n, L⟩ := by
  simp only [fill_buffer]
  rw [if_neg (by simp; omega)]

theorem fill_buffer_of_ge (L : List Char) (p n : Nat) (h : L.length ≤ p) :
    fill_buffer ⟨[], p, n, L⟩ = ⟨[], 0, n + 1, []⟩ := by
  simp only [fill_buffer]
  rw [if_pos (by simpa using h)]

theorem peek_of_drop (n : Nat) {L : List Char} {p : Nat} {c : Char} {t : List Char}
    (h : L.drop p = c :: t) : peek ⟨[], p, n, L⟩ = (some c, ⟨[], p, n, L⟩) := by
  simp only [peek, fill_buffer_of_lt L p n (drop_cons_lt h)]
  rw [getElem?_of_drop h]

theorem peek_of_end (L : List Char) (p n : Nat) (h : L.length ≤ p) :
    peek ⟨[], p, n, L⟩ = (none, ⟨[], 0, n + 1, []⟩) := by
  simp only [peek, fill_buffer_of_ge L p n h]
  rfl

theorem consume_of_lt (L : List Char) (p n : Nat) (h : p + 1 < L.length) :
    consume ⟨[], p, n, L⟩ = ⟨[], p + 1, n, L⟩ := by
  simp only [consume]
  exact fill_buffer_of_lt L (p + 1) n h

theorem consume_of_ge (L : List Char) (p n : Nat) (h : L.length ≤ p + 1) :
    consume ⟨[], p, n, L⟩ = ⟨[], 0, n + 1, []⟩ := by
  simp only [consume]
  exact fill_buffer_of_ge L (p + 1) n h

theorem linesOfAux_nil (n : Nat) : linesOfAux n [] = [] := by
  cases n <;> rfl

theorem splitLine_no_newline (s : List Char) (h : '\n' ∉ s) :
    splitLine s = (s, []) := by
  induction s with
  | nil => rfl
  | cons c cs ih =>
    simp only [splitLine]
    rw [if_neg (by intro hc; exact h (hc ▸ List.mem_cons_self c cs))]
    rw [ih (fun hm => h (List.mem_cons_of_mem c hm))]

theorem linesOf_single (s : List Char) (h : '\n' ∉ s) (hne : s ≠ []) :
    linesOf s = [s] := by
  rcases s with _ | ⟨c, cs⟩
  · exact absurd rfl hne
  · show linesOfAux (cs.length + 1) (c :: cs) = [c :: cs]
    have hs := splitLine_no_newline (c :: cs) h
    simp only [linesOfAux, hs, linesOfAux_nil]

/-- Peeking the freshly created buffer pulls in the single line. -/
theorem peek_new (s : List Char) (h : '\n' ∉ s) (hne : s ≠ []) :
    peek (Lexer.new s).buffer = (s[0]?, ⟨[], 0, 1, s⟩) := by
  show peek ⟨linesOf s, 0, 0, []⟩ = _
  rw [linesOf_single s h hne]
  simp only [peek, fill_buffer]
  rw [if_pos (by simp)]

/-- The skipping loop stops immediately when the peeked char is neither a
comment-opening quote nor whitespace. -/
theorem skip_break (b : PeekableBuffer) (c : Char) (b1 : PeekableBuffer)
    (hpeek : peek b = (some c, b1)) (hq : c ≠ '"') (hw : is_whitespace c = false) :
    ∀ fuel, 1 ≤ fuel → skip_whitespace_comments fuel b = some b1 := by
  intro fuel hf
  rcases fuel with _ | f
  · omega
  · simp only [skip_whitespace_comments, hpeek]
    rw [if_neg hq, if_neg (by simp [hw])]

/-- At end of input (empty buffer, no lines left, empty queue) `read_token`
yields `Ok(None)`: the token stream ends. -/
theorem read_token_eof (k : Nat) :
    ∀ fuel, 1 ≤ fuel →
      read_token fuel ⟨⟨[], 0, k, []⟩, []⟩ =
        some (none, ⟨⟨[], 0, k + 2, []⟩, []⟩) := by
  intro fuel hf
  rcases fuel with _ | f
  · omega
  · rfl


/-- Behaviour of the greedy scanning loop on a single-line buffer: it
consumes exactly the maximal class prefix `run`, appends it to the
accumulator, and stops at the first char outside the class (leaving the
cursor there) or at end of input (having rolled the buffer over). -/
theorem class_run_spec (pred : Char → Bool) :
    ∀ (run : List Char) (tail L : List Char) (p n : Nat) (acc : List Char),
      (∀ c ∈ run, pred c = true) →
      L.drop p = run ++ tail →
      (∀ d t, tail = d :: t → pred d = false) →
      ∃ F st2,
        (∀ fuel, F ≤ fuel →
          class_run pred fuel ⟨[], p, n, L⟩ acc = some (acc ++ run, st2)) ∧
        ((tail ≠ [] ∧ st2 = ⟨[], p + run.length, n, L⟩) ∨
         (tail = [] ∧ ∃ k, st2 = ⟨[], 0, k, []⟩)) := by
  intro run
  induction run with
  | nil =>
    intro tail L p n acc _ hdrop htail
    rcases tail with _ | ⟨d, t⟩
    · have hlen : L.length ≤ p := List.drop_eq_nil_iff.mp (by simpa using hdrop)
      refine ⟨1, ⟨[], 0, n + 1, []⟩, ?_, Or.inr ⟨rfl, n + 1, rfl⟩⟩
      intro fuel hf
      rcases fuel with _ | f
      · omega
      · simp only [class_run, peek_of_end L p n hlen, List.append_nil]
    · have hdrop2 : L.drop p = d :: t := by simpa using hdrop
      have hp := peek_of_drop n hdrop2
      refine ⟨1, ⟨[], p, n, L⟩, ?_, Or.inl ⟨by simp, by simp⟩⟩
      intro fuel hf
      rcases fuel with _ | f
      · omega
      · simp only [class_run, hp]
        rw [if_neg (by simp [htail d t rfl])]
        simp
  | cons c run' ih =>
    intro tail L p n acc hrun hdrop htail
    have hc : pred c = true := hrun c (List.mem_cons_self c run')
    have hdrop' : L.drop p = c :: (run' ++ tail) := by simpa using hdrop
    have hp := peek_of_drop n hdrop'
    have hdropsucc : L.drop (p + 1) = run' ++ tail := drop_cons_succ hdrop'
    by_cases hlt : p + 1 < L.length
    · have hcons := consume_of_lt L p n hlt
      obtain ⟨F, st2, hF, hshape⟩ := ih tail L (p + 1) n (acc ++ [c])
        (fun x hx => hrun x (List.mem_cons_of_mem c hx)) hdropsucc htail
      refine ⟨F + 1, st2, ?_, ?_⟩
      · intro fuel hf
        rcases fuel with _ | f
        · omega
        · simp only [class_run, hp]
          rw [if_pos hc, hcons, hF f (by omega)]
          simp
      · rcases hshape with ⟨hne, hst⟩ | hr
        · refine Or.inl ⟨hne, ?_⟩
          rw [hst]
          simp only [PeekableBuffer.mk.injEq, List.length_cons, true_and, and_true]
          omega
        · exact Or.inr hr
    · have hle : L.length ≤ p + 1 := by omega
      have hnil : run' ++ tail = [] := by
        have h2 := hdropsucc
        rw [List.drop_eq_nil_of_le hle] at h2
        exact h2.symm
      have hrun' : run' = [] := by
        cases run' with
        | nil => rfl
        | cons a b => cases hnil
      have htailnil : tail = [] := by
        rw [hrun'] at hnil
        simpa using hnil
      have hcons := consume_of_ge L p n hle
      obtain ⟨F, st2, hF, hshape⟩ := ih tail [] 0 (n + 1) (acc ++ [c])
        (fun x hx => hrun x (List.mem_cons_of_mem c hx))
        (by rw [hrun', htailnil]; rfl) htail
      refine ⟨F + 1, st2, ?_, ?_⟩
      · intro fuel hf
        rcases fuel with _ | f
        · omega
        · simp only [class_run, hp]
          rw [if_pos hc, hcons, hF f (by omega)]
          simp [hrun']
      · rcases hshape with ⟨hne, _⟩ | hr
        · exact absurd htailnil hne
        · exact Or.inr hr

/-- Behaviour of the string-body loop when the remaining single-line input
contains neither a closing quote nor a backslash: every remaining char is
accumulated, and the loop stops at end of input with the buffer rolled
over. -/
theorem string_loop_spec :
    ∀ (s L : List Char) (p n : Nat) (acc : List Char),
      L.drop p = s → '\'' ∉ s → '\\' ∉ s →
      ∃ F k, ∀ fuel, F ≤ fuel →
        string_loop fuel ⟨[], p, n, L⟩ acc = some (acc ++ s, ⟨[], 0, k, []⟩) := by
  intro s
  induction s with
  | nil =>
    intro L p n acc hdrop _ _
    have hlen : L.length ≤ p := List.drop_eq_nil_iff.mp hdrop
    refine ⟨1, n + 2, ?_⟩
    intro fuel hf
    rcases fuel with _ | f
    · omega
    · simp only [string_loop, peek_of_end L p n hlen]
      have hcons : consume (⟨[], 0, n + 1, []⟩ : PeekableBuffer) = ⟨[], 0, n + 2, []⟩ := rfl
      simp only [hcons, List.append_nil]
  | cons c s' ih =>
    intro L p n acc hdrop hq hb
    have hcq : c ≠ '\'' := fun h => hq (h ▸ List.mem_cons_self c s')
    have hcb : c ≠ '\\' := fun h => hb (h ▸ List.mem_cons_self c s')
    have hp := peek_of_drop n hdrop
    have hdropsucc : L.drop (p + 1) = s' := drop_cons_succ hdrop
    by_cases hlt : p + 1 < L.length
    · have hcons := consume_of_lt L p n hlt
      obtain ⟨F, k, hF⟩ := ih L (p + 1) n (acc ++ [c]) hdropsucc
        (fun hm => hq (List.mem_cons_of_mem c hm)) (fun hm => hb (List.mem_cons_of_mem c hm))
      refine ⟨F + 1, k, ?_⟩
      intro fuel hf
      rcases fuel with _ | f
      · omega
      · simp only [string_loop, hp]
        rw [if_neg hcb, if_neg hcq, hcons, hF f (by omega)]
        simp
    · have hle : L.length ≤ p + 1 := by omega
      have hs' : s' = [] := by
        have h2 := hdropsucc
        rw [List.drop_eq_nil_of_le hle] at h2
        exact h2.symm
      have hcons := consume_of_ge L p n hle
      obtain ⟨F, k, hF⟩ := ih [] 0 (n + 1) (acc ++ [c]) (by rw [hs']; rfl)
        (fun hm => hq (List.mem_cons_of_mem c hm)) (fun hm => hb (List.mem_cons_of_mem c hm))
      refine ⟨F + 1, k, ?_⟩
      intro fuel hf
      rcases fuel with _ | f
      · omega
      · simp only [string_loop, hp]
        rw [if_neg hcb, if_neg hcq, hcons, hF f (by omega)]
        simp [hs']


/-- At end of input the comment-skipping loop never exits: `peek` keeps
returning `None` (never the closing `"`), so each iteration recurses. -/
theorem skip_comment_eof (fuel : Nat) : ∀ k, skip_comment fuel ⟨[], 0, k, []⟩ = none := by
  induction fuel with
  | zero => intro k; rfl
  | succ f ih =>
    intro k
    have h1 : peek (consume (⟨[], 0, k, []⟩ : PeekableBuffer)) =
        (none, ⟨[], 0, k + 2, []⟩) := rfl
    simp only [skip_comment, h1]
    exact ih (k + 2)

/-- On the input `"abc` the comment opened by `"` is never closed, and
`skip_comment` consumes the four characters and then loops at end of input
forever. -/
theorem skip_comment_unterminated (fuel : Nat) :
    skip_comment fuel ⟨[], 0, 1, ['"', 'a', 'b', 'c']⟩ = none := by
  rcases fuel with _ | (_ | (_ | (_ | f)))
  · rfl
  · rfl
  · rfl
  · rfl
  · show skip_comment f ⟨[], 0, 3, []⟩ = none
    exact skip_comment_eof f 3

/-- C4: the claim that every next-token call terminates on finite input is
violated by the code: on the input `"abc` (a comment that is never closed
before the source ends) `read_token` exhausts every fuel — the skip loop
re-polls the exhausted reader forever instead of stopping. -/
theorem lexer_next_token_unterminated_comment_diverges (fuel : Nat) :
    read_token fuel (Lexer.new ['"', 'a', 'b', 'c']) = none := by
  rcases fuel with _ | f
  · rfl
  · have hpeek : peek ⟨linesOf ['"', 'a', 'b', 'c'], 0, 0, []⟩ =
        (some '"', ⟨[], 0, 1, ['"', 'a', 'b', 'c']⟩) := rfl
    have hskip : skip_whitespace_comments (f + 1) ⟨linesOf ['"', 'a', 'b', 'c'], 0, 0, []⟩ =
        none := by
      simp only [skip_whitespace_comments, hpeek, if_true]
      rw [skip_comment_unterminated f]
    simp only [read_token, Lexer.new, hskip]

/-- The first line of a source starting with a non-newline char starts with
that char. -/
theorem linesOf_cons (c : Char) (restc : List Char) (h : c ≠ '\n') :
    ∃ l ls, linesOf (c :: restc) = (c :: l) :: ls := by
  refine ⟨(splitLine restc).1, linesOfAux restc.length (splitLine restc).2, ?_⟩
  show linesOfAux (restc.length + 1) (c :: restc) = _
  simp only [linesOfAux, splitLine]
  rw [if_neg h]

/-- C6 counterexample: on input `$a` the lexer returns `Ok(None)` — the item
that signals end of the token stream — while both input characters are still
unconsumed; there is no lexing-error outcome at all. -/
theorem lexer_unrecognized_char_counterexample :
    read_token 5 (Lexer.new ['$', 'a']) =
      some (none, ⟨⟨[], 0, 1, ['$', 'a']⟩, []⟩) := by decide

/-- C6 (amended): when the next non-skipped character is not a structural
symbol, colon, quote, digit, ASCII letter, or operator character, the lexer
silently ends the token stream: `read_token` yields `Ok(None)` with the
offending character still unconsumed, rather than failing with an error. -/
theorem lexer_unrecognized_char_silent (c : Char) (restc : List Char)
    (h1 : c ∉ (['[', ']', '(', ')', '#', '^', '.', ':', '\''] : List Char))
    (h2 : c.isDigit = false) (h3 : c.isAlpha = false) (h4 : is_operator c = false)
    (h5 : is_whitespace c = false) (h6 : c ≠ '"') :
    ∀ fuel, 1 ≤ fuel → ∃ lx1 : Lexer,
      read_token fuel (Lexer.new (c :: restc)) = some (none, lx1) ∧
      (peek lx1.buffer).1 = some c := by
  have hnl : c ≠ '\n' := by
    intro heq
    rw [heq] at h5
    cases h5
  obtain ⟨l, ls, hlines⟩ := linesOf_cons c restc hnl
  have hfill : fill_buffer ⟨ls, 0, 1, c :: l⟩ = ⟨ls, 0, 1, c :: l⟩ := by
    simp only [fill_buffer]
    rw [if_neg (by simp)]
  have hpeek1 : peek ⟨ls, 0, 1, c :: l⟩ = (some c, ⟨ls, 0, 1, c :: l⟩) := by
    simp only [peek, hfill]
    simp
  have hpeek0 : peek ⟨linesOf (c :: restc), 0, 0, []⟩ = (some c, ⟨ls, 0, 1, c :: l⟩) := by
    rw [hlines]
    simp only [peek, fill_buffer]
    rw [if_pos (by simp)]
    simp
  simp only [List.mem_cons, List.mem_singleton, not_or] at h1
  obtain ⟨n1, n2, n3, n4, n5, n6, n7, n8, n9, _⟩ := h1
  intro fuel hf
  refine ⟨⟨⟨ls, 0, 1, c :: l⟩, []⟩, ?_, by rw [hpeek1]⟩
  have hskip := skip_break _ c _ hpeek0 h6 h5 fuel hf
  simp only [read_token, Lexer.new, hskip, hpeek1]
  rw [if_neg n1, if_neg n2, if_neg n3, if_neg n4, if_neg n5, if_neg n6, if_neg n7,
    if_neg n8, if_neg n9, if_neg (by simp [h2]), if_neg (by simp [h3]),
    if_neg (by simp [h4])]

/-- Witness for C6 at `c := '$'`. -/
theorem lexer_unrecognized_char_silent_witness :
    ∃ lx1 : Lexer, read_token 3 (Lexer.new ['$', 'a']) = some (none, lx1) ∧
      (peek lx1.buffer).1 = some '$' :=
  lexer_unrecognized_char_silent '$' ['a'] (by decide) (by decide) (by decide)
    (by decide) (by decide) (by decide) 3 (by omega)


/-- C5 counterexample: on input `'abc` (string never closed before end of
input) the lexer succeeds with a `String` token holding the partial content
`abc`; no error is produced. -/
theorem lexer_unterminated_string_counterexample :
    read_token 9 (Lexer.new ('\'' :: ['a', 'b', 'c'])) =
      some (some ⟨.String, some "abc", ⟨1, 0⟩⟩, ⟨⟨[], 0, 4, []⟩, []⟩) := by decide

/-- C5 (amended): when a string literal opened by `'` is never closed before
the source ends, the lexer does not fail: it produces a `String` token whose
text is the partial content after the opening quote, and the token stream
then ends normally. -/
theorem lexer_unterminated_string_yields_partial (s : List Char)
    (hq : '\'' ∉ s) (hb : '\\' ∉ s) (hnl : '\n' ∉ s) :
    ∃ F k, (∀ fuel, F ≤ fuel →
      read_token fuel (Lexer.new ('\'' :: s)) =
        some (some ⟨.String, some (String.mk s), ⟨1, 0⟩⟩, ⟨⟨[], 0, k, []⟩, []⟩)) ∧
      (∀ fuel, 1 ≤ fuel →
        read_token fuel (⟨⟨[], 0, k, []⟩, []⟩ : Lexer) =
          some (none, ⟨⟨[], 0, k + 2, []⟩, []⟩)) := by
  have hnl' : '\n' ∉ '\'' :: s := by
    intro hm
    rcases List.mem_cons.mp hm with h | h
    · cases h
    · exact hnl h
  have hpeek0 := peek_new ('\'' :: s) hnl' (by simp)
  rw [show (('\'' :: s)[0]? : Option Char) = some '\'' by simp] at hpeek0
  simp only [Lexer.new] at hpeek0
  have hdrop0 : ('\'' :: s).drop 0 = '\'' :: s := rfl
  have hpeek1 : peek ⟨[], 0, 1, '\'' :: s⟩ = (some '\'', ⟨[], 0, 1, '\'' :: s⟩) :=
    peek_of_drop 1 hdrop0
  -- the state after consuming the opening quote, in both line shapes
  obtain ⟨bS, hbS, hdropS⟩ :
      ∃ bS, consume (⟨[], 0, 1, '\'' :: s⟩ : PeekableBuffer) = bS ∧
        ∃ L p n, bS = ⟨[], p, n, L⟩ ∧ L.drop p = s := by
    rcases s with _ | ⟨c1, s1⟩
    · exact ⟨⟨[], 0, 2, []⟩, consume_of_ge _ 0 1 (by simp), [], 0, 2, rfl, rfl⟩
    · exact ⟨⟨[], 1, 1, '\'' :: c1 :: s1⟩, consume_of_lt _ 0 1 (by simp), _, 1, 1, rfl, rfl⟩
  obtain ⟨L, p, n, hbSeq, hdropS⟩ := hdropS
  subst hbSeq
  obtain ⟨F2, k, hloop⟩ := string_loop_spec s L p n [] hdropS hq hb
  refine ⟨F2 + 1, k, ?_, fun fuel hf => read_token_eof k fuel hf⟩
  intro fuel hf
  have hskip := skip_break _ '\'' _ hpeek0 (by decide) (by decide) fuel (by omega)
  simp only [read_token, Lexer.new, hskip, hpeek1]
  norm_num
  simp only [read_string, hbS, hloop fuel (by omega)]
  simp [current_location]

/-- Witness for C5 at `s := "abc"`. -/
theorem lexer_unterminated_string_yields_partial_witness :
    ∃ F k, (∀ fuel, F ≤ fuel →
      read_token fuel (Lexer.new ('\'' :: ['a', 'b', 'c'])) =
        some (some ⟨.String, some (String.mk ['a', 'b', 'c']), ⟨1, 0⟩⟩,
          ⟨⟨[], 0, k, []⟩, []⟩)) ∧
      (∀ fuel, 1 ≤ fuel →
        read_token fuel (⟨⟨[], 0, k, []⟩, []⟩ : Lexer) =
          some (none, ⟨⟨[], 0, k + 2, []⟩, []⟩)) :=
  lexer_unterminated_string_yields_partial ['a', 'b', 'c'] (by decide) (by decide)
    (by decide)


/-- An operator-class character is none of the characters the earlier
dispatch arms recognize, is not whitespace, and does not open a comment. -/
theorem is_operator_facts (c : Char) (h : is_operator c = true) :
    c ≠ '"' ∧ is_whitespace c = false ∧ c ≠ '[' ∧ c ≠ ']' ∧ c ≠ '(' ∧ c ≠ ')' ∧
    c ≠ '#' ∧ c ≠ '^' ∧ c ≠ '.' ∧ c ≠ ':' ∧ c ≠ '\'' ∧ c.isDigit = false ∧
    c.isAlpha = false ∧ c ≠ '\n' := by
  simp only [is_operator, Bool.or_eq_true, decide_eq_true_eq] at h
  rcases h with ((((((((((((rfl | rfl) | rfl) | rfl) | rfl) | rfl) | rfl) | rfl) | rfl) | rfl) | rfl) | rfl) | rfl) | rfl <;> decide

/-- Every operator-class character has a dedicated single-operator kind (so
the `panic!("bug")` arm of `read_operator` is unreachable). -/
theorem single_operator_kind_exists (c : Char) (h : is_operator c = true) :
    ∃ k, single_operator_kind c = some k := by
  simp only [is_operator, Bool.or_eq_true, decide_eq_true_eq] at h
  rcases h with ((((((((((((rfl | rfl) | rfl) | rfl) | rfl) | rfl) | rfl) | rfl) | rfl) | rfl) | rfl) | rfl) | rfl) | rfl <;> exact ⟨_, rfl⟩

/-- A digit is none of the characters the earlier dispatch arms recognize. -/
theorem is_digit_facts (c : Char) (h : c.isDigit = true) :
    c ≠ '"' ∧ is_whitespace c = false ∧ c ≠ '[' ∧ c ≠ ']' ∧ c ≠ '(' ∧ c ≠ ')' ∧
    c ≠ '#' ∧ c ≠ '^' ∧ c ≠ '.' ∧ c ≠ ':' ∧ c ≠ '\'' ∧ c ≠ '\n' := by
  have hws : is_whitespace c = false := by
    cases hb : is_whitespace c
    · rfl
    · exfalso
      have hd : 48 ≤ c.toNat ∧ c.toNat ≤ 57 := by
        simp only [Char.isDigit, Bool.and_eq_true, decide_eq_true_eq] at h
        exact ⟨h.1, h.2⟩
      simp only [is_whitespace, Bool.or_eq_true, Bool.and_eq_true,
        decide_eq_true_eq] at hb
      omega
  refine ⟨?_, hws, ?_, ?_, ?_, ?_, ?_, ?_, ?_, ?_, ?_, ?_⟩ <;>
    · intro heq
      rw [heq] at h
      exact absurd h (by decide)

/-- On a source whose first character is an operator char, `read_token`
reduces to `read_operator` at the filled buffer. -/
theorem read_token_eq_read_operator (input : List Char) (c0 : Char)
    (st1 : PeekableBuffer)
    (hpeek0 : peek ⟨linesOf input, 0, 0, []⟩ = (some c0, st1))
    (hpeek1 : peek st1 = (some c0, st1))
    (h : is_operator c0 = true) (fuel : Nat) (hf : 1 ≤ fuel) :
    read_token fuel (Lexer.new input) = read_operator fuel ⟨st1, []⟩ := by
  obtain ⟨f1, f2, f3, f4, f5, f6, f7, f8, f9, f10, f11, f12, f13, _⟩ :=
    is_operator_facts c0 h
  have hskip := skip_break _ c0 _ hpeek0 f1 f2 fuel hf
  simp only [read_token, Lexer.new, hskip, hpeek1]
  rw [if_neg f3, if_neg f4, if_neg f5, if_neg f6, if_neg f7, if_neg f8, if_neg f9,
    if_neg f10, if_neg f11, if_neg (by simp [f12]), if_neg (by simp [f13]), if_pos h]

/-- On a source whose first character is a digit, `read_token` reduces to
`read_number` at the filled buffer. -/
theorem read_token_eq_read_number (input : List Char) (c0 : Char)
    (st1 : PeekableBuffer)
    (hpeek0 : peek ⟨linesOf input, 0, 0, []⟩ = (some c0, st1))
    (hpeek1 : peek st1 = (some c0, st1))
    (h : c0.isDigit = true) (fuel : Nat) (hf : 1 ≤ fuel) :
    read_token fuel (Lexer.new input) = read_number fuel ⟨st1, []⟩ := by
  obtain ⟨f1, f2, f3, f4, f5, f6, f7, f8, f9, f10, f11, _⟩ := is_digit_facts c0 h
  have hskip := skip_break _ c0 _ hpeek0 f1 f2 fuel hf
  simp only [read_token, Lexer.new, hskip, hpeek1]
  rw [if_neg f3, if_neg f4, if_neg f5, if_neg f6, if_neg f7, if_neg f8, if_neg f9,
    if_neg f10, if_neg f11, if_pos h]


/-- C7: a maximal operator-class run lexes to a single token: a length-1 run
maps through its dedicated single-operator kind carrying the char as text; a
run of length ≥ 2 that is all dashes with length ≥ 4 is one `Separator`
(regardless of length, with no text); any other run of length ≥ 2 is one
`OperatorSequence` carrying the literal run text. -/
theorem lexer_operator_run_classification (run tail : List Char)
    (hne : run ≠ []) (hop : ∀ c ∈ run, is_operator c = true)
    (htail : ∀ d t, tail = d :: t → is_operator d = false)
    (hnl : '\n' ∉ run ++ tail) :
    ∃ F t lx1, (∀ fuel, F ≤ fuel →
        read_token fuel (Lexer.new (run ++ tail)) = some (some t, lx1)) ∧
      t.location = ⟨1, 0⟩ ∧
      (∀ c, run = [c] → single_operator_kind c = some t.kind ∧
        t.text = some (String.mk [c])) ∧
      (2 ≤ run.length → run.all (fun c => c = '-') = true → 4 ≤ run.length →
        t.kind = .Separator ∧ t.text = none) ∧
      (2 ≤ run.length → ¬(run.all (fun c => c = '-') = true ∧ 4 ≤ run.length) →
        t.kind = .OperatorSequence ∧ t.text = some (String.mk run)) := by
  rcases run with _ | ⟨c0, run0⟩
  · exact absurd rfl hne
  have hc0 : is_operator c0 = true := hop c0 (List.mem_cons_self c0 run0)
  have hpeek0 := peek_new ((c0 :: run0) ++ tail) hnl (by simp)
  rw [show (((c0 :: run0) ++ tail)[0]? : Option Char) = some c0 by simp] at hpeek0
  simp only [Lexer.new] at hpeek0
  have hdrop1 : ((c0 :: run0) ++ tail).drop 0 = c0 :: (run0 ++ tail) := by simp
  have hpeek1 : peek ⟨[], 0, 1, (c0 :: run0) ++ tail⟩ =
      (some c0, ⟨[], 0, 1, (c0 :: run0) ++ tail⟩) :=
    peek_of_drop 1 hdrop1
  obtain ⟨F2, st2, hF2, _⟩ := class_run_spec is_operator (c0 :: run0) tail
    ((c0 :: run0) ++ tail) 0 1 [] hop (by simp) htail
  simp only [List.nil_append] at hF2
  rcases run0 with _ | ⟨c1, run1⟩
  · obtain ⟨kd, hkd⟩ := single_operator_kind_exists c0 hc0
    refine ⟨F2 + 1, ⟨kd, some (String.mk [c0]), ⟨1, 0⟩⟩, ⟨st2, []⟩, ?_, rfl, ?_, ?_, ?_⟩
    · intro fuel hf
      rw [read_token_eq_read_operator _ c0 _ hpeek0 hpeek1 hc0 fuel (by omega)]
      simp only [read_operator, hF2 fuel (by omega)]
      rw [if_neg (by simp)]
      rw [hkd]
      simp [current_location]
    · intro c hc
      injection hc with h1 _
      subst h1
      exact ⟨hkd, rfl⟩
    · intro h2
      simp at h2
    · intro h2
      simp at h2
  · by_cases hsep : (c0 :: c1 :: run1).all (fun c => c = '-') = true ∧
        4 ≤ (c0 :: c1 :: run1).length
    · refine ⟨F2 + 1, ⟨.Separator, none, ⟨1, 0⟩⟩, ⟨st2, []⟩, ?_, rfl, ?_, ?_, ?_⟩
      · intro fuel hf
        rw [read_token_eq_read_operator _ c0 _ hpeek0 hpeek1 hc0 fuel (by omega)]
        simp only [read_operator, hF2 fuel (by omega)]
        rw [if_pos (by simp), if_pos (by
          simp only [Bool.and_eq_true, decide_eq_true_eq]
          exact hsep)]
        simp [current_location]
      · intro c hcc
        simp at hcc
      · intro _ _ _
        exact ⟨rfl, rfl⟩
      · intro _ hcontra
        exact absurd hsep hcontra
    · refine ⟨F2 + 1,
        ⟨.OperatorSequence, some (String.mk (c0 :: c1 :: run1)), ⟨1, 0⟩⟩,
        ⟨st2, []⟩, ?_, rfl, ?_, ?_, ?_⟩
      · intro fuel hf
        rw [read_token_eq_read_operator _ c0 _ hpeek0 hpeek1 hc0 fuel (by omega)]
        simp only [read_operator, hF2 fuel (by omega)]
        rw [if_pos (by simp), if_neg (by
          simp only [Bool.and_eq_true, decide_eq_true_eq]
          exact hsep)]
        simp [current_location]
      · intro c hcc
        simp at hcc
      · intro _ hall h4
        exact absurd ⟨hall, h4⟩ hsep
      · intro _ _
        exact ⟨rfl, rfl⟩

/-- Witness for C7 at the spec's examples `-` (single minus), `----`
(separator) and `-->` (mixed run). -/
theorem lexer_operator_run_classification_witness :
    (∃ F t lx1, (∀ fuel, F ≤ fuel →
        read_token fuel (Lexer.new (['-'] ++ [])) = some (some t, lx1)) ∧
      t.location = ⟨1, 0⟩ ∧
      (∀ c, ['-'] = [c] → single_operator_kind c = some t.kind ∧
        t.text = some (String.mk [c])) ∧
      (2 ≤ (['-'] : List Char).length → (['-'] : List Char).all (fun c => c = '-') = true →
        4 ≤ (['-'] : List Char).length → t.kind = .Separator ∧ t.text = none) ∧
      (2 ≤ (['-'] : List Char).length →
        ¬((['-'] : List Char).all (fun c => c = '-') = true ∧ 4 ≤ (['-'] : List Char).length) →
        t.kind = .OperatorSequence ∧ t.text = some (String.mk ['-']))) ∧
    (∃ F t lx1, (∀ fuel, F ≤ fuel →
        read_token fuel (Lexer.new (['-', '-', '-', '-'] ++ [])) = some (some t, lx1)) ∧
      t.location = ⟨1, 0⟩ ∧
      (∀ c, ['-', '-', '-', '-'] = [c] → single_operator_kind c = some t.kind ∧
        t.text = some (String.mk [c])) ∧
      (2 ≤ (['-', '-', '-', '-'] : List Char).length →
        (['-', '-', '-', '-'] : List Char).all (fun c => c = '-') = true →
        4 ≤ (['-', '-', '-', '-'] : List Char).length →
        t.kind = .Separator ∧ t.text = none) ∧
      (2 ≤ (['-', '-', '-', '-'] : List Char).length →
        ¬((['-', '-', '-', '-'] : List Char).all (fun c => c = '-') = true ∧
          4 ≤ (['-', '-', '-', '-'] : List Char).length) →
        t.kind = .OperatorSequence ∧ t.text = some (String.mk ['-', '-', '-', '-']))) :=
  ⟨lexer_operator_run_classification ['-'] [] (by decide)
      (by intro c hc; simp at hc; subst hc; decide) (by intro d t h; cases h) (by decide),
    lexer_operator_run_classification ['-', '-', '-', '-'] [] (by decide)
      (by intro c hc; simp at hc; subst hc; decide) (by intro d t h; cases h) (by decide)⟩


/-- C8: a digit run followed by `.`: when a digit follows the period the
lexer produces one `Double` token spanning both digit runs; when no digit
follows, the period is not part of the number — the lexer emits an `Integer`
token for the digit run and queues a separate `Period` token (at the
period's own column), which the next `read_token` call pops from the one-slot
queue. -/
theorem lexer_number_period_handling (d d2 tail2 : List Char)
    (hd : d ≠ []) (hdig : ∀ c ∈ d, c.isDigit = true)
    (hdig2 : ∀ c ∈ d2, c.isDigit = true)
    (htail2 : ∀ e t, tail2 = e :: t → e.isDigit = false)
    (hnl : '\n' ∉ d ++ '.' :: (d2 ++ tail2)) :
    (d2 ≠ [] → ∃ F lx1, ∀ fuel, F ≤ fuel →
      read_token fuel (Lexer.new (d ++ '.' :: (d2 ++ tail2))) =
        some (some ⟨.Double, some (String.mk (d ++ '.' :: d2)), ⟨1, 0⟩⟩, lx1)) ∧
    (d2 = [] → ∃ F lx1 lx2, (∀ fuel, F ≤ fuel →
      read_token fuel (Lexer.new (d ++ '.' :: (d2 ++ tail2))) =
        some (some ⟨.Integer, some (String.mk d), ⟨1, 0⟩⟩, lx1)) ∧
      lx1.queue = [⟨.Period, none, ⟨1, d.length⟩⟩] ∧
      (∀ fuel, read_token fuel lx1 = some (some ⟨.Period, none, ⟨1, d.length⟩⟩, lx2)) ∧
      lx2.queue = []) := by
  rcases d with _ | ⟨e0, d'⟩
  · exact absurd rfl hd
  have he0 : e0.isDigit = true := hdig e0 (List.mem_cons_self e0 d')
  have hpeek0 := peek_new ((e0 :: d') ++ '.' :: (d2 ++ tail2)) hnl (by simp)
  rw [show (((e0 :: d') ++ '.' :: (d2 ++ tail2))[0]? : Option Char) = some e0 by simp]
    at hpeek0
  simp only [Lexer.new] at hpeek0
  have hdrop1 : ((e0 :: d') ++ '.' :: (d2 ++ tail2)).drop 0 =
      e0 :: (d' ++ '.' :: (d2 ++ tail2)) := by simp
  have hpeek1 : peek ⟨[], 0, 1, (e0 :: d') ++ '.' :: (d2 ++ tail2)⟩ =
      (some e0, ⟨[], 0, 1, (e0 :: d') ++ '.' :: (d2 ++ tail2)⟩) :=
    peek_of_drop 1 hdrop1
  obtain ⟨F2, st2, hF2, hshape⟩ := class_run_spec Char.isDigit (e0 :: d')
    ('.' :: (d2 ++ tail2)) ((e0 :: d') ++ '.' :: (d2 ++ tail2)) 0 1 [] hdig
    (by simp) (by intro dd tt h; injection h with h1 _; rw [← h1]; decide)
  rcases hshape with ⟨_, hst2⟩ | ⟨hcontra, _⟩
  · rw [hst2] at hF2
    simp only [List.nil_append, Nat.zero_add] at hF2
    have hdropP : ((e0 :: d') ++ '.' :: (d2 ++ tail2)).drop (e0 :: d').length =
        '.' :: (d2 ++ tail2) := List.drop_left (e0 :: d') ('.' :: (d2 ++ tail2))
    have hpeekP : peek ⟨[], (e0 :: d').length, 1, (e0 :: d') ++ '.' :: (d2 ++ tail2)⟩ =
        (some '.', ⟨[], (e0 :: d').length, 1, (e0 :: d') ++ '.' :: (d2 ++ tail2)⟩) :=
      peek_of_drop 1 hdropP
    have hdropQ : ((e0 :: d') ++ '.' :: (d2 ++ tail2)).drop ((e0 :: d').length + 1) =
        d2 ++ tail2 := drop_cons_succ hdropP
    constructor
    · -- Double case
      rintro hne2
      rcases d2 with _ | ⟨f0, d2'⟩
      · exact absurd rfl hne2
      have hconsQ : consume (⟨[], (e0 :: d').length, 1,
          (e0 :: d') ++ '.' :: ((f0 :: d2') ++ tail2)⟩ : PeekableBuffer) =
          ⟨[], (e0 :: d').length + 1, 1, (e0 :: d') ++ '.' :: ((f0 :: d2') ++ tail2)⟩ :=
        consume_of_lt _ _ 1 (by simp)
      have hdropQ' : ((e0 :: d') ++ '.' :: ((f0 :: d2') ++ tail2)).drop
          ((e0 :: d').length + 1) = f0 :: (d2' ++ tail2) := by simpa using hdropQ
      have hpeekQ := peek_of_drop 1 hdropQ'
      have hf0 : f0.isDigit = true := hdig2 f0 (List.mem_cons_self f0 d2')
      obtain ⟨F3, st4, hF3, _⟩ := class_run_spec Char.isDigit (f0 :: d2') tail2
        ((e0 :: d') ++ '.' :: ((f0 :: d2') ++ tail2)) ((e0 :: d').length + 1) 1
        ((e0 :: d') ++ ['.']) hdig2 hdropQ' htail2
      refine ⟨F2 + F3 + 1, ⟨st4, []⟩, ?_⟩
      intro fuel hf
      rw [read_token_eq_read_number _ e0 _ hpeek0 hpeek1 he0 fuel (by omega)]
      simp only [read_number, hF2 fuel (by omega), hpeekP, hconsQ, hpeekQ]
      rw [if_pos hf0]
      rw [hF3 fuel (by omega)]
      simp [current_location, List.append_assoc]
    · -- Integer + queued Period case
      rintro rfl
      simp only [List.nil_append] at hdropQ hpeekP hF2 hnl hpeek0 hpeek1 ⊢
      rcases tail2 with _ | ⟨t0, t'⟩
      · have hcons : consume (⟨[], (e0 :: d').length, 1,
            (e0 :: d') ++ ['.']⟩ : PeekableBuffer) = ⟨[], 0, 2, []⟩ :=
          consume_of_ge _ _ 1 (by simp)
        refine ⟨F2 + 1,
          ⟨⟨[], 0, 3, []⟩, [⟨.Period, none, ⟨1, (e0 :: d').length⟩⟩]⟩,
          ⟨⟨[], 0, 3, []⟩, []⟩, ?_, rfl, ?_, rfl⟩
        · intro fuel hf
          rw [read_token_eq_read_number _ e0 _ hpeek0 hpeek1 he0 fuel (by omega)]
          simp only [read_number, hF2 fuel (by omega), hpeekP, hcons,
            peek_of_end [] 0 2 (by simp)]
          simp [current_location]
        · intro fuel
          simp only [read_token]
      · have hcons : consume (⟨[], (e0 :: d').length, 1,
            (e0 :: d') ++ '.' :: (t0 :: t')⟩ : PeekableBuffer) =
            ⟨[], (e0 :: d').length + 1, 1, (e0 :: d') ++ '.' :: (t0 :: t')⟩ :=
          consume_of_lt _ _ 1 (by simp)
        have hpeekQ := peek_of_drop 1 hdropQ
        refine ⟨F2 + 1,
          ⟨⟨[], (e0 :: d').length + 1, 1, (e0 :: d') ++ '.' :: (t0 :: t')⟩,
            [⟨.Period, none, ⟨1, (e0 :: d').length⟩⟩]⟩,
          ⟨⟨[], (e0 :: d').length + 1, 1, (e0 :: d') ++ '.' :: (t0 :: t')⟩, []⟩,
          ?_, rfl, ?_, rfl⟩
        · intro fuel hf
          rw [read_token_eq_read_number _ e0 _ hpeek0 hpeek1 he0 fuel (by omega)]
          simp only [read_number, hF2 fuel (by omega), hpeekP, hcons, hpeekQ]
          rw [if_neg (by simp [htail2 t0 t' rfl])]
          simp [current_location]
        · intro fuel
          simp only [read_token]
  · cases hcontra


/-- Witness for C8 at the spec's examples `3.14` (one Double) and `1.`
(Integer then Period via the queue). -/
theorem lexer_number_period_handling_witness :
    (∃ F lx1, ∀ fuel, F ≤ fuel →
      read_token fuel (Lexer.new (['3'] ++ '.' :: (['1', '4'] ++ []))) =
        some (some ⟨.Double, some (String.mk (['3'] ++ '.' :: ['1', '4'])), ⟨1, 0⟩⟩,
          lx1)) ∧
    (∃ F lx1 lx2, (∀ fuel, F ≤ fuel →
      read_token fuel (Lexer.new (['1'] ++ '.' :: ([] ++ []))) =
        some (some ⟨.Integer, some (String.mk ['1']), ⟨1, 0⟩⟩, lx1)) ∧
      lx1.queue = [⟨.Period, none, ⟨1, (['1'] : List Char).length⟩⟩] ∧
      (∀ fuel, read_token fuel lx1 =
        some (some ⟨.Period, none, ⟨1, (['1'] : List Char).length⟩⟩, lx2)) ∧
      lx2.queue = []) :=
  ⟨(lexer_number_period_handling ['3'] ['1', '4'] [] (by decide) (by decide) (by decide)
      (by intro e t h; cases h) (by decide)).1 (by decide),
    (lexer_number_period_handling ['1'] [] [] (by decide) (by decide) (by decide)
      (by intro e t h; cases h) (by decide)).2 rfl⟩


/-! ## AST (`src/compiler/ast.rs`) -/

/-- `enum Expression`.  The `f64` payload of `LiteralDouble` is represented
by its source text (floating point itself is not modelled; no claim depends
on double arithmetic). -/
inductive Expression where
  | Assignment (variable_name : String) (value : Expression)
  | BinaryMessage (message : String) (left : Expression) (right : Expression)
  | Block (parameters : List String) (locals : List String) (body : List Expression)
  | KeywordMessage (message : String) (receiver : Expression)
      (parameters : List Expression)
  | LiteralArray (values : List Expression)
  | LiteralBoolean (value : Bool)
  | LiteralDouble (text : String)
  | LiteralInteger (value : Int)
  | LiteralNil
  | LiteralString (value : String)
  | LiteralSymbol (value : String)
  | Return (value : Expression)
  | UnaryMessage (message : String) (receiver : Expression)
  | Variable (name : String)

/-- `enum Method`. -/
inductive Method where
  | Primitive (name : String) (parameters : List String)
  | Native (name : String) (parameters : List String) (locals : List String)
      (body : List Expression)

/-- `struct Class`.  The `HashMap<String, Method>` method maps are modelled
as association lists with latest-wins insertion (`map_insert`); the map has
no observable order. -/
structure Class where
  name : String
  superclass : Option String
  instance_methods : List (String × Method)
  instance_variables : List String
  class_methods : List (String × Method)
  class_variables : List String

/-- `HashMap::insert`: the new binding replaces any previous one. -/
def map_insert (k : String) (v : Method) (m : List (String × Method)) :
    List (String × Method) :=
  (k, v) :: m.filter (fun p => p.1 != k)

/-! ## Parser (`src/compiler/parser.rs`)

The token stream is modelled as the list of tokens not yet consumed
(`Peekable<Lexer>` with the I/O-error path out of scope: a token sequence
proper has no embedded read errors).  Beyond the source's
`Error::ParseError`, the model adds two outcomes that Rust expresses
non-locally: `Panic` for `unreachable!`/`unwrap` panics, and `OutOfFuel` for
the loop fuel running out. -/

/-- `parser::Error`, plus explicit markers for panics and fuel. -/
inductive PError where
  | ParseError (description : String) (filename : String) (location : Location)
  | Panic (message : String)
  | OutOfFuel
deriving DecidableEq, Repr

/-- `struct Parser`: unconsumed tokens, filename, and the location of the
last successfully consumed token (`Location::default()` initially). -/
structure Parser where
  tokens : List Token
  filename : String
  last_location : Location
deriving DecidableEq, Repr

/-- Rendering of a token kind for the `Expected {:?}, found {:?}` message. -/
def kindName : TokenKind → String
  | .And => "And"
  | .Assign => "Assign"
  | .At => "At"
  | .Colon => "Colon"
  | .Comma => "Comma"
  | .Divide => "Divide"
  | .Double => "Double"
  | .EndBlock => "EndBlock"
  | .EndTerm => "EndTerm"
  | .Equal => "Equal"
  | .Exit => "Exit"
  | .Identifier => "Identifier"
  | .Integer => "Integer"
  | .Keyword => "Keyword"
  | .KeywordSequence => "KeywordSequence"
  | .Less => "Less"
  | .Minus => "Minus"
  | .Modulus => "Modulus"
  | .More => "More"
  | .NewBlock => "NewBlock"
  | .NewTerm => "NewTerm"
  | .Not => "Not"
  | .OperatorSequence => "OperatorSequence"
  | .Or => "Or"
  | .Percent => "Percent"
  | .Period => "Period"
  | .Plus => "Plus"
  | .Pound => "Pound"
  | .Primitive => "Primitive"
  | .Separator => "Separator"
  | .Star => "Star"
  | .String => "String"

/-- `Parser::peek_token_kind`: peek without consuming; at end of stream a
located "Unexpected end of program" error. -/
def peek_token_kind (ps : Parser) : Except PError TokenKind :=
  match ps.tokens with
  | t :: _ => .ok t.kind
  | [] => .error (.ParseError "Unexpected end of program" ps.filename ps.last_location)

/-- The non-propagating `if let Ok(kind) = self.peek_token_kind()` shape
used by `parse_locals` and `parse`. -/
def peek_kind_opt (ps : Parser) : Option TokenKind :=
  ps.tokens.head?.map (fun t => t.kind)

/-- `Parser::expect_token_one_of`: consume one token, record its location as
`last_location`, and fail (located at that token) if its kind is not
expected. -/
def expect_token_one_of (expected : List TokenKind) (ps : Parser) :
    Except PError (Token × Parser) :=
  match ps.tokens with
  | t :: rest =>
    let ps1 : Parser := { ps with tokens := rest, last_location := t.location }
    if t.kind ∈ expected then .ok (t, ps1)
    else
      .error (.ParseError
        ("Expected " ++ String.intercalate ", " (expected.map kindName) ++
          ", found " ++ kindName t.kind)
        ps.filename t.location)
  | [] => .error (.ParseError "Unexpected end of program" ps.filename ps.last_location)

def expect_token (kind : TokenKind) (ps : Parser) : Except PError (Token × Parser) :=
  expect_token_one_of [kind] ps

/-- `token.text.unwrap()`: panics when the token has no text payload. -/
def unwrap_text (t : Token) : Except PError String :=
  match t.text with
  | some s => .ok s
  | none => .error (.Panic "called Option::unwrap() on a None value")

def digitsToNat (cs : List Char) : Nat :=
  cs.foldl (fun a c => a * 10 + (c.toNat - 48)) 0

/-- `text.parse::<i64>().unwrap()`: the lexer only produces all-digit
`Integer` text, so sign prefixes are not modelled; a non-digit text or a
value beyond `i64::MAX` panics. -/
def parse_i64 (s : String) : Except PError Int :=
  let cs := s.toList
  if cs.isEmpty then .error (.Panic "ParseIntError")
  else if cs.all Char.isDigit then
    if digitsToNat cs ≤ 9223372036854775807 then .ok (digitsToNat cs : Nat)
    else .error (.Panic "ParseIntError: number too large to fit in target type")
  else .error (.Panic "ParseIntError")

/-- `text.parse::<f64>().unwrap()` as a validity check: the lexer's `Double`
text (digits, one dot, digits) always parses; anything else panics. -/
def check_f64 (s : String) : Except PError Unit :=
  match s.toList.splitOn '.' with
  | [a, b] => if a.all Char.isDigit && b.all Char.isDigit && !a.isEmpty && !b.isEmpty
      then .ok () else .error (.Panic "ParseFloatError")
  | [a] => if a.all Char.isDigit && !a.isEmpty then .ok ()
      else .error (.Panic "ParseFloatError")
  | _ => .error (.Panic "ParseFloatError")

/-- `SYMBOL_KINDS`. -/
def SYMBOL_KINDS : List TokenKind :=
  [.Identifier, .String, .Keyword, .KeywordSequence, .OperatorSequence, .And, .At,
   .Comma, .Divide, .Equal, .Less, .Minus, .Modulus, .More, .Not, .Or, .Percent,
   .Plus, .Star]

/-- `Parser::parse_expression_identifier`: `true`/`false`/`nil` become
literals, everything else a `Variable`. -/
def parse_expression_identifier (ps : Parser) : Except PError (Expression × Parser) := do
  let (t, ps) ← expect_token .Identifier ps
  let name ← unwrap_text t
  let e : Expression :=
    match name with
    | "false" => .LiteralBoolean false
    | "nil" => .LiteralNil
    | "true" => .LiteralBoolean true
    | _ => .Variable name
  .ok (e, ps)

/-- `Parser::parse_expression_number`. -/
def parse_expression_number (negative : Bool) (ps : Parser) :
    Except PError (Expression × Parser) := do
  let (token, ps) ← expect_token_one_of [.Integer, .Double] ps
  match token.kind, token.text with
  | .Integer, some text => do
    let value ← parse_i64 text
    .ok (.LiteralInteger (if negative then -value else value), ps)
  | .Double, some text => do
    let _ ← check_f64 text
    .ok (.LiteralDouble ((if negative then "-" else "") ++ text), ps)
  | _, _ => .error (.Panic "internal error: entered unreachable code")

/-- `Parser::parse_expression_negative_number`. -/
def parse_expression_negative_number (ps : Parser) :
    Except PError (Expression × Parser) := do
  let (_, ps) ← expect_token .Minus ps
  parse_expression_number true ps

/-- `Parser::parse_expression_string`. -/
def parse_expression_string (ps : Parser) : Except PError (Expression × Parser) := do
  let (t, ps) ← expect_token .String ps
  let value ← unwrap_text t
  .ok (.LiteralString value, ps)

/-- `Parser::parse_expression_symbol`. -/
def parse_expression_symbol (ps : Parser) : Except PError (Expression × Parser) := do
  let (t, ps) ← expect_token_one_of SYMBOL_KINDS ps
  let value ← unwrap_text t
  .ok (.LiteralSymbol value, ps)

/-- `Parser::parse_expression_unary_message`. -/
def parse_expression_unary_message (value : Expression) (ps : Parser) :
    Except PError (Expression × Parser) := do
  let (t, ps) ← expect_token .Identifier ps
  let name ← unwrap_text t
  .ok (.UnaryMessage name value, ps)

/-- The `while let TokenKind::Identifier = peek?` loop of
`parse_expression_binary_operand`. -/
def unary_loop : Nat → Expression → Parser → Except PError (Expression × Parser)
  | 0, _, _ => .error .OutOfFuel
  | fuel + 1, value, ps => do
    let k ← peek_token_kind ps
    match k with
    | .Identifier => do
      let (v2, ps) ← parse_expression_unary_message value ps
      unary_loop fuel v2 ps
    | _ => .ok (value, ps)

/-- The `while let TokenKind::Colon = peek?` loop of
`parse_block_parameters`, including the closing `|` check after a nonempty
parameter list. -/
def block_params_loop : Nat → List String → Parser →
    Except PError (List String × Parser)
  | 0, _, _ => .error .OutOfFuel
  | fuel + 1, acc, ps => do
    let k ← peek_token_kind ps
    match k with
    | .Colon => do
      let (_, ps) ← expect_token .Colon ps
      let (t, ps) ← expect_token .Identifier ps
      let param ← unwrap_text t
      block_params_loop fuel (acc ++ [param]) ps
    | _ =>
      if acc.isEmpty then .ok (acc, ps)
      else do
        let (_, ps) ← expect_token .Or ps
        .ok (acc, ps)

/-- `Parser::parse_block_parameters`. -/
def parse_block_parameters (fuel : Nat) (ps : Parser) :
    Except PError (List String × Parser) :=
  block_params_loop fuel [] ps

/-- The `while let Ok(TokenKind::Identifier)` loop of `parse_locals`,
including the closing `|`. -/
def locals_loop : Nat → List String → Parser → Except PError (List String × Parser)
  | 0, _, _ => .error .OutOfFuel
  | fuel + 1, acc, ps =>
    match peek_kind_opt ps with
    | some .Identifier => do
      let (t, ps) ← expect_token .Identifier ps
      let name ← unwrap_text t
      locals_loop fuel (acc ++ [name]) ps
    | _ => do
      let (_, ps) ← expect_token .Or ps
      .ok (acc, ps)

/-- `Parser::parse_locals`: an optional `| names |` section; the leading
peek does not propagate end-of-stream (`if let Ok(..)`). -/
def parse_locals (fuel : Nat) (ps : Parser) : Except PError (List String × Parser) :=
  match peek_kind_opt ps with
  | some .Or => do
    let (_, ps) ← expect_token .Or ps
    locals_loop fuel [] ps
  | _ => .ok ([], ps)


mutual

/-- `Parser::parse_expression`: parse a primary, then repeatedly extend. -/
def parse_expression : Nat → Parser → Except PError (Expression × Parser)
  | 0, _ => .error .OutOfFuel
  | fuel + 1, ps => do
    let (e, ps) ← parse_expression_primary fuel ps
    parse_expression_loop fuel e ps

/-- The extension loop of `parse_expression`: assignment, unary, keyword or
binary continuation, until the next token starts none of them. -/
def parse_expression_loop : Nat → Expression → Parser →
    Except PError (Expression × Parser)
  | 0, _, _ => .error .OutOfFuel
  | fuel + 1, e, ps => do
    let k ← peek_token_kind ps
    match k with
    | .Assign => do
      let (e2, ps) ← parse_expression_assignment fuel e ps
      parse_expression_loop fuel e2 ps
    | .Identifier => do
      let (e2, ps) ← parse_expression_messages fuel e ps
      parse_expression_loop fuel e2 ps
    | .Keyword => do
      let (e2, ps) ← parse_expression_messages fuel e ps
      parse_expression_loop fuel e2 ps
    | .OperatorSequence => do
      let (e2, ps) ← parse_expression_messages fuel e ps
      parse_expression_loop fuel e2 ps
    | k =>
      if k.is_binary_operator then do
        let (e2, ps) ← parse_expression_messages fuel e ps
        parse_expression_loop fuel e2 ps
      else .ok (e, ps)

/-- `Parser::parse_expression_primary`; the catch-all arm is the source's
`unreachable!("Unknown expression token: ...")` panic. -/
def parse_expression_primary : Nat → Parser → Except PError (Expression × Parser)
  | 0, _ => .error .OutOfFuel
  | fuel + 1, ps => do
    let k ← peek_token_kind ps
    match k with
    | .Double => parse_expression_number false ps
    | .Identifier => parse_expression_identifier ps
    | .Integer => parse_expression_number false ps
    | .Minus => parse_expression_negative_number ps
    | .NewBlock => parse_expression_nested_block fuel ps
    | .NewTerm => parse_expression_nested_term fuel ps
    | .Pound => parse_expression_pound fuel ps
    | .String => parse_expression_string ps
    | _ => .error (.Panic "internal error: entered unreachable code: Unknown expression token")

/-- `Parser::parse_expression_assignment`: consume `:=`, then either build an
`Assignment` (left side a bare variable) or fail, located at the `:=`. -/
def parse_expression_assignment : Nat → Expression → Parser →
    Except PError (Expression × Parser)
  | 0, _, _ => .error .OutOfFuel
  | fuel + 1, left, ps => do
    let (token, ps) ← expect_token .Assign ps
    match left with
    | .Variable name => do
      let (right, ps) ← parse_expression fuel ps
      .ok (.Assignment name right, ps)
    | _ =>
      .error (.ParseError
        "Attempt to assign result of expression to something other than a variable"
        ps.filename token.location)

/-- `Parser::parse_expression_messages`; the catch-all arm is the source's
`unreachable!()` panic. -/
def parse_expression_messages : Nat → Expression → Parser →
    Except PError (Expression × Parser)
  | 0, _, _ => .error .OutOfFuel
  | fuel + 1, value, ps => do
    let k ← peek_token_kind ps
    match k with
    | .Identifier => parse_expression_unary_message value ps
    | .Keyword => parse_expression_keyword_message fuel value ps
    | .OperatorSequence => parse_expression_binary_message fuel value ps
    | k =>
      if k.is_binary_operator then parse_expression_binary_message fuel value ps
      else .error (.Panic "internal error: entered unreachable code")

/-- `Parser::parse_expression_binary_message`. -/
def parse_expression_binary_message : Nat → Expression → Parser →
    Except PError (Expression × Parser)
  | 0, _, _ => .error .OutOfFuel
  | fuel + 1, left, ps => do
    let kind ← peek_token_kind ps
    let (t, ps) ← expect_token kind ps
    let message ← unwrap_text t
    let (right, ps) ← parse_expression_binary_operand fuel ps
    .ok (.BinaryMessage message left right, ps)

/-- `Parser::parse_expression_binary_operand`: a primary with unary sends. -/
def parse_expression_binary_operand : Nat → Parser →
    Except PError (Expression × Parser)
  | 0, _ => .error .OutOfFuel
  | fuel + 1, ps => do
    let (v, ps) ← parse_expression_primary fuel ps
    unary_loop fuel v ps

/-- `Parser::parse_expression_formula`: a binary operand extended by binary
sends (used for keyword-message arguments). -/
def parse_expression_formula : Nat → Parser → Except PError (Expression × Parser)
  | 0, _ => .error .OutOfFuel
  | fuel + 1, ps => do
    let (v, ps) ← parse_expression_binary_operand fuel ps
    formula_loop fuel v ps

/-- The binary-send loop of `parse_expression_formula`. -/
def formula_loop : Nat → Expression → Parser → Except PError (Expression × Parser)
  | 0, _, _ => .error .OutOfFuel
  | fuel + 1, value, ps => do
    let k ← peek_token_kind ps
    match k with
    | .OperatorSequence => do
      let (v2, ps) ← parse_expression_binary_message fuel value ps
      formula_loop fuel v2 ps
    | k =>
      if k.is_binary_operator then do
        let (v2, ps) ← parse_expression_binary_message fuel value ps
        formula_loop fuel v2 ps
      else .ok (value, ps)

/-- `Parser::parse_expression_keyword_message`. -/
def parse_expression_keyword_message : Nat → Expression → Parser →
    Except PError (Expression × Parser)
  | 0, _, _ => .error .OutOfFuel
  | fuel + 1, value, ps => do
    let (message, parameters, ps) ← keyword_loop fuel "" [] ps
    .ok (.KeywordMessage message value parameters, ps)

/-- The `while let TokenKind::Keyword = peek?` loop of
`parse_expression_keyword_message`: concatenate keyword parts and collect one
formula argument per part. -/
def keyword_loop : Nat → String → List Expression → Parser →
    Except PError (String × List Expression × Parser)
  | 0, _, _, _ => .error .OutOfFuel
  | fuel + 1, message, parameters, ps => do
    let k ← peek_token_kind ps
    match k with
    | .Keyword => do
      let (t, ps) ← expect_token .Keyword ps
      let keyword ← unwrap_text t
      let (param, ps) ← parse_expression_formula fuel ps
      keyword_loop fuel (message ++ keyword) (parameters ++ [param]) ps
    | _ => .ok (message, parameters, ps)

/-- `Parser::parse_expression_array`. -/
def parse_expression_array : Nat → Parser → Except PError (Expression × Parser)
  | 0, _ => .error .OutOfFuel
  | fuel + 1, ps => do
    let (_, ps) ← expect_token .NewTerm ps
    let (values, ps) ← array_loop fuel [] ps
    let (_, ps) ← expect_token .EndTerm ps
    .ok (.LiteralArray values, ps)

/-- The element loop of `parse_expression_array`. -/
def array_loop : Nat → List Expression → Parser →
    Except PError (List Expression × Parser)
  | 0, _, _ => .error .OutOfFuel
  | fuel + 1, values, ps => do
    let k ← peek_token_kind ps
    match k with
    | .EndTerm => .ok (values, ps)
    | _ => do
      let (e, ps) ← parse_expression fuel ps
      array_loop fuel (values ++ [e]) ps

/-- `Parser::parse_expression_nested_block`. -/
def parse_expression_nested_block : Nat → Parser → Except PError (Expression × Parser)
  | 0, _ => .error .OutOfFuel
  | fuel + 1, ps => do
    let (_, ps) ← expect_token .NewBlock ps
    let (parameters, ps) ← parse_block_parameters fuel ps
    let (locals, ps) ← parse_locals fuel ps
    let (body, ps) ← parse_body fuel ps
    let (_, ps) ← expect_token .EndBlock ps
    .ok (.Block parameters locals body, ps)

/-- `Parser::parse_expression_nested_term`. -/
def parse_expression_nested_term : Nat → Parser → Except PError (Expression × Parser)
  | 0, _ => .error .OutOfFuel
  | fuel + 1, ps => do
    let (_, ps) ← expect_token .NewTerm ps
    let (e, ps) ← parse_expression fuel ps
    let (_, ps) ← expect_token .EndTerm ps
    .ok (e, ps)

/-- `Parser::parse_expression_pound`: `#(` starts an array, otherwise a
symbol literal. -/
def parse_expression_pound : Nat → Parser → Except PError (Expression × Parser)
  | 0, _ => .error .OutOfFuel
  | fuel + 1, ps => do
    let (_, ps) ← expect_token .Pound ps
    let k ← peek_token_kind ps
    match k with
    | .NewTerm => parse_expression_array fuel ps
    | _ => parse_expression_symbol ps

/-- `Parser::parse_expression_result`: a `^` return statement. -/
def parse_expression_result : Nat → Parser → Except PError (Expression × Parser)
  | 0, _ => .error .OutOfFuel
  | fuel + 1, ps => do
    let (_, ps) ← expect_token .Exit ps
    let (st, ps) ← parse_expression fuel ps
    .ok (.Return st, ps)

/-- `Parser::parse_body`. -/
def parse_body : Nat → Parser → Except PError (List Expression × Parser)
  | 0, _ => .error .OutOfFuel
  | fuel + 1, ps => body_loop fuel [] ps

/-- The statement loop of `parse_body`: stop before `)` or `]`, parse a
return or an expression, then an optional `.` separator. -/
def body_loop : Nat → List Expression → Parser →
    Except PError (List Expression × Parser)
  | 0, _, _ => .error .OutOfFuel
  | fuel + 1, acc, ps => do
    let k ← peek_token_kind ps
    match k with
    | .EndTerm => .ok (acc, ps)
    | .EndBlock => .ok (acc, ps)
    | k => do
      let (e, ps) ←
        match k with
        | .Exit => parse_expression_result fuel ps
        | _ => parse_expression fuel ps
      let k2 ← peek_token_kind ps
      let ps ←
        if k2 = .Period then do
          let (_, ps) ← expect_token .Period ps
          pure ps
        else pure ps
      body_loop fuel (acc ++ [e]) ps

end


/-- `Parser::parse_unary_pattern`. -/
def parse_unary_pattern (ps : Parser) :
    Except PError ((String × List String) × Parser) := do
  let (t, ps) ← expect_token .Identifier ps
  let name ← unwrap_text t
  .ok ((name, []), ps)

/-- The `while let TokenKind::Keyword = peek?` loop of
`parse_keyword_pattern`. -/
def keyword_pattern_loop : Nat → String → List String → Parser →
    Except PError ((String × List String) × Parser)
  | 0, _, _, _ => .error .OutOfFuel
  | fuel + 1, name, parameters, ps => do
    let k ← peek_token_kind ps
    match k with
    | .Keyword => do
      let (t, ps) ← expect_token .Keyword ps
      let part ← unwrap_text t
      let (t2, ps) ← expect_token .Identifier ps
      let parameter ← unwrap_text t2
      keyword_pattern_loop fuel (name ++ part) (parameters ++ [parameter]) ps
    | _ => .ok ((name, parameters), ps)

/-- `Parser::parse_keyword_pattern`. -/
def parse_keyword_pattern (fuel : Nat) (ps : Parser) :
    Except PError ((String × List String) × Parser) := do
  let (t, ps) ← expect_token .Keyword ps
  let name ← unwrap_text t
  let (t2, ps) ← expect_token .Identifier ps
  let p1 ← unwrap_text t2
  keyword_pattern_loop fuel name [p1] ps

/-- `Parser::parse_binary_pattern`. -/
def parse_binary_pattern (ps : Parser) :
    Except PError ((String × List String) × Parser) := do
  let kind ← peek_token_kind ps
  let (t, ps) ← expect_token kind ps
  let message ← unwrap_text t
  let (t2, ps) ← expect_token .Identifier ps
  let parameter ← unwrap_text t2
  .ok ((message, [parameter]), ps)

/-- `Parser::parse_pattern`; the catch-all arm is the source's
`unreachable!()` panic. -/
def parse_pattern (fuel : Nat) (ps : Parser) :
    Except PError ((String × List String) × Parser) := do
  let k ← peek_token_kind ps
  match k with
  | .Identifier => parse_unary_pattern ps
  | .Keyword => parse_keyword_pattern fuel ps
  | .OperatorSequence => parse_binary_pattern ps
  | k =>
    if k.is_binary_operator then parse_binary_pattern ps
    else .error (.Panic "internal error: entered unreachable code")

/-- `Parser::parse_method`. -/
def parse_method (fuel : Nat) (ps : Parser) : Except PError (Method × Parser) := do
  let ((name, parameters), ps) ← parse_pattern fuel ps
  let (_, ps) ← expect_token .Equal ps
  let k ← peek_token_kind ps
  match k with
  | .Primitive => do
    let (_, ps) ← expect_token .Primitive ps
    .ok (.Primitive name parameters, ps)
  | _ => do
    let (_, ps) ← expect_token .NewTerm ps
    let (locals, ps) ← parse_locals fuel ps
    let (body, ps) ← parse_body fuel ps
    let (_, ps) ← expect_token .EndTerm ps
    .ok (.Native name parameters locals body, ps)

/-- The method loop of `parse_methods`: keep parsing while the next token
can start a pattern; keyed insertion into the method map. -/
def methods_loop : Nat → List (String × Method) → Parser →
    Except PError (List (String × Method) × Parser)
  | 0, _, _ => .error .OutOfFuel
  | fuel + 1, methods, ps => do
    let k ← peek_token_kind ps
    let go : Bool :=
      match k with
      | .Identifier => true
      | .Keyword => true
      | .OperatorSequence => true
      | k => k.is_binary_operator
    if go then do
      let (m, ps) ← parse_method fuel ps
      let name :=
        match m with
        | .Primitive n _ => n
        | .Native n _ _ _ => n
      methods_loop fuel (map_insert name m methods) ps
    else .ok (methods, ps)

/-- `Parser::parse_methods`. -/
def parse_methods (fuel : Nat) (ps : Parser) :
    Except PError (List (String × Method) × Parser) :=
  methods_loop fuel [] ps

/-- `Parser::parse`: the class grammar
`Identifier '=' [Identifier] '(' locals methods [Separator locals methods] ')'`
(the closing `)` is never consumed by `parse` itself; the separator peek does
not propagate end-of-stream). -/
def parse (fuel : Nat) (ps : Parser) : Except PError (Class × Parser) := do
  let (t, ps) ← expect_token .Identifier ps
  let name ← unwrap_text t
  let (_, ps) ← expect_token .Equal ps
  let k ← peek_token_kind ps
  let (superclass, ps) ←
    if k = .Identifier then do
      let (t2, ps) ← expect_token .Identifier ps
      pure (t2.text, ps)
    else pure ((none : Option String), ps)
  let (_, ps) ← expect_token .NewTerm ps
  let (instance_variables, ps) ← parse_locals fuel ps
  let (instance_methods, ps) ← parse_methods fuel ps
  match peek_kind_opt ps with
  | some .Separator => do
    let (_, ps) ← expect_token .Separator ps
    let (class_variables, ps) ← parse_locals fuel ps
    let (class_methods, ps) ← parse_methods fuel ps
    .ok (⟨name, superclass, instance_methods, instance_variables,
      class_methods, class_variables⟩, ps)
  | _ =>
    .ok (⟨name, superclass, instance_methods, instance_variables, [], []⟩, ps)

/-- `Parser::new` on a token sequence and filename. -/
def Parser.new (tokens : List Token) (filename : String) : Parser :=
  ⟨tokens, filename, Location.default⟩


/-- Number of `:` characters in a selector. -/
def colonCount (s : String) : Nat :=
  s.toList.countP (fun c => c = ':')

mutual

/-- Invariant of C10 over a whole expression tree: every `KeywordMessage`
node has as many parameters as colon-terminated keyword parts in its
selector, and at least one part. -/
def exprOK : Expression → Bool
  | .Assignment _ v => exprOK v
  | .BinaryMessage _ l r => exprOK l && exprOK r
  | .Block _ _ body => exprsOK body
  | .KeywordMessage m r ps =>
    decide (colonCount m = ps.length) && decide (1 ≤ ps.length) &&
      exprOK r && exprsOK ps
  | .LiteralArray vs => exprsOK vs
  | .Return v => exprOK v
  | .UnaryMessage _ r => exprOK r
  | _ => true

def exprsOK : List Expression → Bool
  | [] => true
  | e :: es => exprOK e && exprsOK es

end

/-- A lexer-wellformed `Keyword` token carries text with exactly one colon
(the lexer builds it as identifier text plus one trailing `:`). -/
def keyword_text_ok (t : Token) : Bool :=
  match t.kind, t.text with
  | .Keyword, some s => colonCount s = 1
  | .Keyword, none => false
  | _, _ => true

/-- All `Keyword` tokens in the stream are lexer-wellformed. -/
def WFT (ps : Parser) : Prop :=
  ps.tokens.all keyword_text_ok = true

theorem except_bind_ok {α β : Type} (x : Except PError α) (f : α → Except PError β)
    (r : β) : (x >>= f) = .ok r ↔ ∃ a, x = .ok a ∧ f a = .ok r := by
  cases x <;> simp [Bind.bind, Except.bind]

theorem expect_ok_inv {expected : List TokenKind} {ps : Parser} {t : Token}
    {ps1 : Parser} (h : expect_token_one_of expected ps = .ok (t, ps1)) :
    ps.tokens = t :: ps1.tokens ∧ t.kind ∈ expected ∧ ps1.filename = ps.filename ∧
      ps1.last_location = t.location := by
  rcases hts : ps.tokens with _ | ⟨t0, rest⟩
  · simp only [expect_token_one_of, hts] at h
    exact Except.noConfusion h
  · simp only [expect_token_one_of, hts] at h
    by_cases hk : t0.kind ∈ expected
    · rw [if_pos hk] at h
      injection h with h2
      injection h2 with h3 h4
      subst h3
      subst h4
      exact ⟨rfl, hk, rfl, rfl⟩
    · rw [if_neg hk] at h
      cases h

theorem WFT_expect {expected : List TokenKind} {ps : Parser} {t : Token}
    {ps1 : Parser} (hwf : WFT ps) (h : expect_token_one_of expected ps = .ok (t, ps1)) :
    WFT ps1 ∧ keyword_text_ok t = true := by
  obtain ⟨hts, _, _, _⟩ := expect_ok_inv h
  unfold WFT at hwf ⊢
  rw [hts] at hwf
  simp only [List.all_cons, Bool.and_eq_true] at hwf
  exact ⟨hwf.2, hwf.1⟩

/-- A wellformed `Keyword` token consumed by `expect_token` yields text with
exactly one colon. -/
theorem keyword_token_text {ps : Parser} {t : Token} {ps1 : Parser}
    (hwf : WFT ps) (h : expect_token_one_of [.Keyword] ps = .ok (t, ps1)) :
    ∃ s, unwrap_text t = .ok s ∧ colonCount s = 1 := by
  obtain ⟨hwf1, htok⟩ := WFT_expect hwf h
  obtain ⟨_, hk, _, _⟩ := expect_ok_inv h
  simp only [List.mem_singleton] at hk
  unfold keyword_text_ok at htok
  rw [hk] at htok
  rcases htext : t.text with _ | s
  · rw [htext] at htok
    cases htok
  · rw [htext] at htok
    simp only [decide_eq_true_eq] at htok
    exact ⟨s, by rw [unwrap_text, htext], htok⟩

theorem colonCount_append (a b : String) :
    colonCount (a ++ b) = colonCount a + colonCount b := by
  simp [colonCount, String.data_append, List.countP_append]


theorem identifier_ok {ps : Parser} {e : Expression} {ps2 : Parser}
    (hwf : WFT ps) (h : parse_expression_identifier ps = .ok (e, ps2)) :
    exprOK e = true ∧ WFT ps2 := by
  rw [parse_expression_identifier, except_bind_ok] at h
  obtain ⟨⟨t, ps1⟩, h1, h⟩ := h
  rw [except_bind_ok] at h
  obtain ⟨name, _, h⟩ := h
  injection h with h3
  injection h3 with h4 h5
  subst h4
  subst h5
  exact ⟨by split <;> rfl, (WFT_expect hwf h1).1⟩

theorem number_ok {negative : Bool} {ps : Parser} {e : Expression} {ps2 : Parser}
    (hwf : WFT ps) (h : parse_expression_number negative ps = .ok (e, ps2)) :
    exprOK e = true ∧ WFT ps2 := by
  rw [parse_expression_number, except_bind_ok] at h
  obtain ⟨⟨t, ps1⟩, h1, h⟩ := h
  have hwf1 := (WFT_expect hwf h1).1
  split at h
  next t2 ps3 heq =>
    injection heq with he1 he2
    subst he1
    subst he2
    split at h
    · rw [except_bind_ok] at h
      obtain ⟨v, _, h⟩ := h
      injection h with h3
      injection h3 with h4 h5
      subst h4
      subst h5
      exact ⟨rfl, hwf1⟩
    · rw [except_bind_ok] at h
      obtain ⟨u, _, h⟩ := h
      injection h with h3
      injection h3 with h4 h5
      subst h4
      subst h5
      exact ⟨rfl, hwf1⟩
    · exact Except.noConfusion h

theorem negative_number_ok {ps : Parser} {e : Expression} {ps2 : Parser}
    (hwf : WFT ps) (h : parse_expression_negative_number ps = .ok (e, ps2)) :
    exprOK e = true ∧ WFT ps2 := by
  rw [parse_expression_negative_number, except_bind_ok] at h
  obtain ⟨⟨t, ps1⟩, h1, h⟩ := h
  exact number_ok (WFT_expect hwf h1).1 h

theorem string_ok {ps : Parser} {e : Expression} {ps2 : Parser}
    (hwf : WFT ps) (h : parse_expression_string ps = .ok (e, ps2)) :
    exprOK e = true ∧ WFT ps2 := by
  rw [parse_expression_string, except_bind_ok] at h
  obtain ⟨⟨t, ps1⟩, h1, h⟩ := h
  rw [except_bind_ok] at h
  obtain ⟨v, _, h⟩ := h
  injection h with h3
  injection h3 with h4 h5
  subst h4
  subst h5
  exact ⟨rfl, (WFT_expect hwf h1).1⟩

theorem symbol_ok {ps : Parser} {e : Expression} {ps2 : Parser}
    (hwf : WFT ps) (h : parse_expression_symbol ps = .ok (e, ps2)) :
    exprOK e = true ∧ WFT ps2 := by
  rw [parse_expression_symbol, except_bind_ok] at h
  obtain ⟨⟨t, ps1⟩, h1, h⟩ := h
  rw [except_bind_ok] at h
  obtain ⟨v, _, h⟩ := h
  injection h with h3
  injection h3 with h4 h5
  subst h4
  subst h5
  exact ⟨rfl, (WFT_expect hwf h1).1⟩

theorem unary_message_ok {value : Expression} {ps : Parser} {e : Expression}
    {ps2 : Parser} (hwf : WFT ps) (hv : exprOK value = true)
    (h : parse_expression_unary_message value ps = .ok (e, ps2)) :
    exprOK e = true ∧ WFT ps2 := by
  rw [parse_expression_unary_message, except_bind_ok] at h
  obtain ⟨⟨t, ps1⟩, h1, h⟩ := h
  rw [except_bind_ok] at h
  obtain ⟨name, _, h⟩ := h
  injection h with h3
  injection h3 with h4 h5
  subst h4
  subst h5
  exact ⟨by simpa [exprOK] using hv, (WFT_expect hwf h1).1⟩

theorem unary_loop_ok : ∀ {fuel : Nat} {value : Expression} {ps : Parser}
    {e : Expression} {ps2 : Parser}, WFT ps → exprOK value = true →
    unary_loop fuel value ps = .ok (e, ps2) → exprOK e = true ∧ WFT ps2 := by
  intro fuel
  induction fuel with
  | zero => intro value ps e ps2 _ _ h; exact Except.noConfusion h
  | succ f ih =>
    intro value ps e ps2 hwf hv h
    rw [unary_loop, except_bind_ok] at h
    obtain ⟨k, hk, h⟩ := h
    split at h
    · rw [except_bind_ok] at h
      obtain ⟨⟨v2, ps1⟩, h1, h⟩ := h
      obtain ⟨hv2, hwf1⟩ := unary_message_ok hwf hv h1
      exact ih hwf1 hv2 h
    · injection h with h3
      injection h3 with h4 h5
      subst h4
      subst h5
      exact ⟨hv, hwf⟩

theorem locals_loop_wf : ∀ {fuel : Nat} {acc : List String} {ps : Parser}
    {r : List String} {ps2 : Parser}, WFT ps →
    locals_loop fuel acc ps = .ok (r, ps2) → WFT ps2 := by
  intro fuel
  induction fuel with
  | zero => intro acc ps r ps2 _ h; exact Except.noConfusion h
  | succ f ih =>
    intro acc ps r ps2 hwf h
    rw [locals_loop] at h
    split at h
    · rw [except_bind_ok] at h
      obtain ⟨⟨t, ps1⟩, h1, h⟩ := h
      rw [except_bind_ok] at h
      obtain ⟨name, _, h⟩ := h
      exact ih (WFT_expect hwf h1).1 h
    · rw [except_bind_ok] at h
      obtain ⟨⟨t, ps1⟩, h1, h⟩ := h
      injection h with h3
      injection h3 with h4 h5
      subst h5
      exact (WFT_expect hwf h1).1

theorem parse_locals_wf {fuel : Nat} {ps : Parser} {r : List String} {ps2 : Parser}
    (hwf : WFT ps) (h : parse_locals fuel ps = .ok (r, ps2)) : WFT ps2 := by
  rw [parse_locals] at h
  split at h
  · rw [except_bind_ok] at h
    obtain ⟨⟨t, ps1⟩, h1, h⟩ := h
    exact locals_loop_wf (WFT_expect hwf h1).1 h
  · injection h with h3
    injection h3 with h4 h5
    subst h5
    exact hwf

theorem block_params_loop_wf : ∀ {fuel : Nat} {acc : List String} {ps : Parser}
    {r : List String} {ps2 : Parser}, WFT ps →
    block_params_loop fuel acc ps = .ok (r, ps2) → WFT ps2 := by
  intro fuel
  induction fuel with
  | zero => intro acc ps r ps2 _ h; exact Except.noConfusion h
  | succ f ih =>
    intro acc ps r ps2 hwf h
    rw [block_params_loop, except_bind_ok] at h
    obtain ⟨k, hk, h⟩ := h
    split at h
    · rw [except_bind_ok] at h
      obtain ⟨⟨t, ps1⟩, h1, h⟩ := h
      rw [except_bind_ok] at h
      obtain ⟨⟨t2, ps3⟩, h2, h⟩ := h
      rw [except_bind_ok] at h
      obtain ⟨param, _, h⟩ := h
      exact ih (WFT_expect (WFT_expect hwf h1).1 h2).1 h
    · split at h
      · injection h with h3
        injection h3 with h4 h5
        subst h5
        exact hwf
      · rw [except_bind_ok] at h
        obtain ⟨⟨t, ps1⟩, h1, h⟩ := h
        injection h with h3
        injection h3 with h4 h5
        subst h5
        exact (WFT_expect hwf h1).1

theorem parse_block_parameters_wf {fuel : Nat} {ps : Parser} {r : List String}
    {ps2 : Parser} (hwf : WFT ps)
    (h : parse_block_parameters fuel ps = .ok (r, ps2)) : WFT ps2 :=
  block_params_loop_wf hwf h


theorem exprsOK_append (a b : List Expression) :
    exprsOK (a ++ b) = (exprsOK a && exprsOK b) := by
  induction a with
  | nil => simp [exprsOK]
  | cons e es ih => simp [exprsOK, ih, Bool.and_assoc]

set_option maxHeartbeats 2000000 in
/-- Simultaneous invariant for the whole expression-parsing family: on
lexer-wellformed token streams (every `Keyword` token carries exactly one
colon), every successfully parsed expression satisfies `exprOK`, and
wellformedness of the remaining stream is preserved.  The `keyword_loop`
component additionally tracks that the selector's colon count equals the
parameter count and that the loop runs at least once when it starts at a
`Keyword` token. -/
theorem parser_invariant : ∀ fuel : Nat,
    (∀ {ps : Parser} {e : Expression} {ps2 : Parser}, WFT ps →
      parse_expression fuel ps = .ok (e, ps2) → exprOK e = true ∧ WFT ps2) ∧
    (∀ {e0 : Expression} {ps : Parser} {e : Expression} {ps2 : Parser}, WFT ps →
      exprOK e0 = true → parse_expression_loop fuel e0 ps = .ok (e, ps2) →
      exprOK e = true ∧ WFT ps2) ∧
    (∀ {ps : Parser} {e : Expression} {ps2 : Parser}, WFT ps →
      parse_expression_primary fuel ps = .ok (e, ps2) → exprOK e = true ∧ WFT ps2) ∧
    (∀ {e0 : Expression} {ps : Parser} {e : Expression} {ps2 : Parser}, WFT ps →
      exprOK e0 = true → parse_expression_assignment fuel e0 ps = .ok (e, ps2) →
      exprOK e = true ∧ WFT ps2) ∧
    (∀ {e0 : Expression} {ps : Parser} {e : Expression} {ps2 : Parser}, WFT ps →
      exprOK e0 = true → parse_expression_messages fuel e0 ps = .ok (e, ps2) →
      exprOK e = true ∧ WFT ps2) ∧
    (∀ {e0 : Expression} {ps : Parser} {e : Expression} {ps2 : Parser}, WFT ps →
      exprOK e0 = true → parse_expression_binary_message fuel e0 ps = .ok (e, ps2) →
      exprOK e = true ∧ WFT ps2) ∧
    (∀ {ps : Parser} {e : Expression} {ps2 : Parser}, WFT ps →
      parse_expression_binary_operand fuel ps = .ok (e, ps2) →
      exprOK e = true ∧ WFT ps2) ∧
    (∀ {ps : Parser} {e : Expression} {ps2 : Parser}, WFT ps →
      parse_expression_formula fuel ps = .ok (e, ps2) → exprOK e = true ∧ WFT ps2) ∧
    (∀ {e0 : Expression} {ps : Parser} {e : Expression} {ps2 : Parser}, WFT ps →
      exprOK e0 = true → formula_loop fuel e0 ps = .ok (e, ps2) →
      exprOK e = true ∧ WFT ps2) ∧
    (∀ {e0 : Expression} {ps : Parser} {e : Expression} {ps2 : Parser}, WFT ps →
      exprOK e0 = true → peek_token_kind ps = .ok .Keyword →
      parse_expression_keyword_message fuel e0 ps = .ok (e, ps2) →
      exprOK e = true ∧ WFT ps2) ∧
    (∀ {msg : String} {params : List Expression} {ps : Parser} {m2 : String}
      {l2 : List Expression} {ps2 : Parser}, WFT ps →
      colonCount msg = params.length → exprsOK params = true →
      keyword_loop fuel msg params ps = .ok (m2, l2, ps2) →
      colonCount m2 = l2.length ∧ exprsOK l2 = true ∧ WFT ps2 ∧
        params.length ≤ l2.length ∧
        (peek_token_kind ps = .ok .Keyword → params.length < l2.length)) ∧
    (∀ {ps : Parser} {e : Expression} {ps2 : Parser}, WFT ps →
      parse_expression_array fuel ps = .ok (e, ps2) → exprOK e = true ∧ WFT ps2) ∧
    (∀ {vs : List Expression} {ps : Parser} {r : List Expression} {ps2 : Parser},
      WFT ps → exprsOK vs = true → array_loop fuel vs ps = .ok (r, ps2) →
      exprsOK r = true ∧ WFT ps2) ∧
    (∀ {ps : Parser} {e : Expression} {ps2 : Parser}, WFT ps →
      parse_expression_nested_block fuel ps = .ok (e, ps2) →
      exprOK e = true ∧ WFT ps2) ∧
    (∀ {ps : Parser} {e : Expression} {ps2 : Parser}, WFT ps →
      parse_expression_nested_term fuel ps = .ok (e, ps2) →
      exprOK e = true ∧ WFT ps2) ∧
    (∀ {ps : Parser} {e : Expression} {ps2 : Parser}, WFT ps →
      parse_expression_pound fuel ps = .ok (e, ps2) → exprOK e = true ∧ WFT ps2) ∧
    (∀ {ps : Parser} {e : Expression} {ps2 : Parser}, WFT ps →
      parse_expression_result fuel ps = .ok (e, ps2) → exprOK e = true ∧ WFT ps2) ∧
    (∀ {ps : Parser} {r : List Expression} {ps2 : Parser}, WFT ps →
      parse_body fuel ps = .ok (r, ps2) → exprsOK r = true ∧ WFT ps2) ∧
    (∀ {acc : List Expression} {ps : Parser} {r : List Expression} {ps2 : Parser},
      WFT ps → exprsOK acc = true → body_loop fuel acc ps = .ok (r, ps2) →
      exprsOK r = true ∧ WFT ps2) := by
  intro fuel
  induction fuel with
  | zero =>
    refine ⟨?_, ?_, ?_, ?_, ?_, ?_, ?_, ?_, ?_, ?_, ?_, ?_, ?_, ?_, ?_, ?_, ?_, ?_, ?_⟩
    · intro ps e ps2 _ h
      exact Except.noConfusion h
    · intro e0 ps e ps2 _ _ h
      exact Except.noConfusion h
    · intro ps e ps2 _ h
      exact Except.noConfusion h
    · intro e0 ps e ps2 _ _ h
      exact Except.noConfusion h
    · intro e0 ps e ps2 _ _ h
      exact Except.noConfusion h
    · intro e0 ps e ps2 _ _ h
      exact Except.noConfusion h
    · intro ps e ps2 _ h
      exact Except.noConfusion h
    · intro ps e ps2 _ h
      exact Except.noConfusion h
    · intro e0 ps e ps2 _ _ h
      exact Except.noConfusion h
    · intro e0 ps e ps2 _ _ _ h
      exact Except.noConfusion h
    · intro msg params ps m2 l2 ps2 _ _ _ h
      exact Except.noConfusion h
    · intro ps e ps2 _ h
      exact Except.noConfusion h
    · intro vs ps r ps2 _ _ h
      exact Except.noConfusion h
    · intro ps e ps2 _ h
      exact Except.noConfusion h
    · intro ps e ps2 _ h
      exact Except.noConfusion h
    · intro ps e ps2 _ h
      exact Except.noConfusion h
    · intro ps e ps2 _ h
      exact Except.noConfusion h
    · intro ps r ps2 _ h
      exact Except.noConfusion h
    · intro acc ps r ps2 _ _ h
      exact Except.noConfusion h
  | succ f ih =>
    obtain ⟨ih1, ih2, ih3, ih4, ih5, ih6, ih7, ih8, ih9, ih10, ih11, ih12, ih13,
      ih14, ih15, ih16, ih17, ih18, ih19⟩ := ih
    refine ⟨?_, ?_, ?_, ?_, ?_, ?_, ?_, ?_, ?_, ?_, ?_, ?_, ?_, ?_, ?_, ?_, ?_, ?_, ?_⟩
    · -- parse_expression
      intro ps e ps2 hwf h
      rw [parse_expression, except_bind_ok] at h
      obtain ⟨⟨e1, ps1⟩, h1, h⟩ := h
      obtain ⟨he1, hwf1⟩ := ih3 hwf h1
      exact ih2 hwf1 he1 h
    · -- parse_expression_loop
      intro e0 ps e ps2 hwf he0 h
      rw [parse_expression_loop, except_bind_ok] at h
      obtain ⟨k, hk, h⟩ := h
      split at h
      · rw [except_bind_ok] at h
        obtain ⟨⟨e2, ps1⟩, h1, h⟩ := h
        obtain ⟨he2, hwf1⟩ := ih4 hwf he0 h1
        exact ih2 hwf1 he2 h
      · rw [except_bind_ok] at h
        obtain ⟨⟨e2, ps1⟩, h1, h⟩ := h
        obtain ⟨he2, hwf1⟩ := ih5 hwf he0 h1
        exact ih2 hwf1 he2 h
      · rw [except_bind_ok] at h
        obtain ⟨⟨e2, ps1⟩, h1, h⟩ := h
        obtain ⟨he2, hwf1⟩ := ih5 hwf he0 h1
        exact ih2 hwf1 he2 h
      · rw [except_bind_ok] at h
        obtain ⟨⟨e2, ps1⟩, h1, h⟩ := h
        obtain ⟨he2, hwf1⟩ := ih5 hwf he0 h1
        exact ih2 hwf1 he2 h
      · split at h
        · rw [except_bind_ok] at h
          obtain ⟨⟨e2, ps1⟩, h1, h⟩ := h
          obtain ⟨he2, hwf1⟩ := ih5 hwf he0 h1
          exact ih2 hwf1 he2 h
        · injection h with h3
          injection h3 with h4 h5
          subst h4
          subst h5
          exact ⟨he0, hwf⟩
    · -- parse_expression_primary
      intro ps e ps2 hwf h
      rw [parse_expression_primary, except_bind_ok] at h
      obtain ⟨k, hk, h⟩ := h
      split at h
      · exact number_ok hwf h
      · exact identifier_ok hwf h
      · exact number_ok hwf h
      · exact negative_number_ok hwf h
      · exact ih14 hwf h
      · exact ih15 hwf h
      · exact ih16 hwf h
      · exact string_ok hwf h
      · exact Except.noConfusion h
    · -- parse_expression_assignment
      intro e0 ps e ps2 hwf he0 h
      rw [parse_expression_assignment, except_bind_ok] at h
      obtain ⟨⟨tok, ps1⟩, h1, h⟩ := h
      have hwf1 := (WFT_expect hwf h1).1
      split at h
      next tok2 ps3 heq =>
        injection heq with he1 he2
        subst he1
        subst he2
        split at h
        · rw [except_bind_ok] at h
          obtain ⟨⟨right, ps4⟩, h2, h⟩ := h
          obtain ⟨hr, hwf3⟩ := ih1 hwf1 h2
          injection h with h3
          injection h3 with h4 h5
          subst h4
          subst h5
          exact ⟨by simpa [exprOK] using hr, hwf3⟩
        · exact Except.noConfusion h
    · -- parse_expression_messages
      intro e0 ps e ps2 hwf he0 h
      rw [parse_expression_messages, except_bind_ok] at h
      obtain ⟨k, hk, h⟩ := h
      split at h
      · exact unary_message_ok hwf he0 h
      · exact ih10 hwf he0 hk h
      · exact ih6 hwf he0 h
      · split at h
        · exact ih6 hwf he0 h
        · exact Except.noConfusion h
    · -- parse_expression_binary_message
      intro e0 ps e ps2 hwf he0 h
      rw [parse_expression_binary_message, except_bind_ok] at h
      obtain ⟨k, hk, h⟩ := h
      rw [except_bind_ok] at h
      obtain ⟨⟨t, ps1⟩, h1, h⟩ := h
      have hwf1 := (WFT_expect hwf h1).1
      rw [except_bind_ok] at h
      obtain ⟨msg, hmsg, h⟩ := h
      rw [except_bind_ok] at h
      obtain ⟨⟨right, ps3⟩, h2, h⟩ := h
      obtain ⟨hr, hwf3⟩ := ih7 hwf1 h2
      injection h with h3
      injection h3 with h4 h5
      subst h4
      subst h5
      refine ⟨?_, hwf3⟩
      simp only [exprOK, Bool.and_eq_true]
      exact ⟨he0, hr⟩
    · -- parse_expression_binary_operand
      intro ps e ps2 hwf h
      rw [parse_expression_binary_operand, except_bind_ok] at h
      obtain ⟨⟨v, ps1⟩, h1, h⟩ := h
      obtain ⟨hv, hwf1⟩ := ih3 hwf h1
      exact unary_loop_ok hwf1 hv h
    · -- parse_expression_formula
      intro ps e ps2 hwf h
      rw [parse_expression_formula, except_bind_ok] at h
      obtain ⟨⟨v, ps1⟩, h1, h⟩ := h
      obtain ⟨hv, hwf1⟩ := ih7 hwf h1
      exact ih9 hwf1 hv h
    · -- formula_loop
      intro e0 ps e ps2 hwf he0 h
      rw [formula_loop, except_bind_ok] at h
      obtain ⟨k, hk, h⟩ := h
      split at h
      · rw [except_bind_ok] at h
        obtain ⟨⟨v2, ps1⟩, h1, h⟩ := h
        obtain ⟨hv2, hwf1⟩ := ih6 hwf he0 h1
        exact ih9 hwf1 hv2 h
      · split at h
        · rw [except_bind_ok] at h
          obtain ⟨⟨v2, ps1⟩, h1, h⟩ := h
          obtain ⟨hv2, hwf1⟩ := ih6 hwf he0 h1
          exact ih9 hwf1 hv2 h
        · injection h with h3
          injection h3 with h4 h5
          subst h4
          subst h5
          exact ⟨he0, hwf⟩
    · -- parse_expression_keyword_message
      intro e0 ps e ps2 hwf he0 hpk h
      rw [parse_expression_keyword_message, except_bind_ok] at h
      obtain ⟨⟨m2, l2, ps1⟩, h1, h⟩ := h
      obtain ⟨hc, hl, hwf1, _, hlt⟩ := ih11 hwf
        (show colonCount "" = List.length ([] : List Expression) by decide)
        (show exprsOK [] = true from rfl) h1
      injection h with h3
      injection h3 with h4 h5
      subst h4
      subst h5
      refine ⟨?_, hwf1⟩
      simp only [exprOK, Bool.and_eq_true, decide_eq_true_eq]
      exact ⟨⟨⟨hc, by have := hlt hpk; omega⟩, he0⟩, hl⟩
    · -- keyword_loop
      intro msg params ps m2 l2 ps2 hwf hcm hpm h
      rw [keyword_loop, except_bind_ok] at h
      obtain ⟨k, hk, h⟩ := h
      split at h
      · rw [except_bind_ok] at h
        obtain ⟨⟨t, ps1⟩, h1, h⟩ := h
        have hwf1 := (WFT_expect hwf h1).1
        obtain ⟨s, hs, hcs⟩ := keyword_token_text hwf h1
        rw [except_bind_ok] at h
        obtain ⟨kw, hkw, h⟩ := h
        rw [hs] at hkw
        injection hkw with hkws
        subst hkws
        rw [except_bind_ok] at h
        obtain ⟨⟨param, ps3⟩, h2, h⟩ := h
        obtain ⟨hpOK, hwf3⟩ := ih8 hwf1 h2
        have hrec := ih11 hwf3
          (show colonCount (msg ++ s) = (params ++ [param]).length by
            rw [colonCount_append, hcs, hcm]
            simp)
          (by rw [exprsOK_append]
              simp [exprsOK, hpm, hpOK]) h
        obtain ⟨hc2, hl2, hwf2, hlen, _⟩ := hrec
        have hlen' : params.length + 1 ≤ l2.length := by
          simpa using hlen
        exact ⟨hc2, hl2, hwf2, by omega, fun _ => by omega⟩
      · injection h with h3
        injection h3 with h4 h5
        injection h5 with h6 h7
        subst h4
        subst h6
        subst h7
        refine ⟨hcm, hpm, hwf, le_refl _, fun hpk => ?_⟩
        have hkk := hk.symm.trans hpk
        injection hkk with hkk2
        rename_i hne
        exact absurd hkk2 hne
    · -- parse_expression_array
      intro ps e ps2 hwf h
      rw [parse_expression_array, except_bind_ok] at h
      obtain ⟨⟨t, ps1⟩, h1, h⟩ := h
      have hwf1 := (WFT_expect hwf h1).1
      rw [except_bind_ok] at h
      obtain ⟨⟨values, ps3⟩, h2, h⟩ := h
      obtain ⟨hv, hwf3⟩ := ih13 hwf1 (show exprsOK [] = true from rfl) h2
      rw [except_bind_ok] at h
      obtain ⟨⟨t2, ps4⟩, h3, h⟩ := h
      have hwf4 := (WFT_expect hwf3 h3).1
      injection h with h4
      injection h4 with h5 h6
      subst h5
      subst h6
      exact ⟨by simpa [exprOK] using hv, hwf4⟩
    · -- array_loop
      intro vs ps r ps2 hwf hvs h
      rw [array_loop, except_bind_ok] at h
      obtain ⟨k, hk, h⟩ := h
      split at h
      · injection h with h3
        injection h3 with h4 h5
        subst h4
        subst h5
        exact ⟨hvs, hwf⟩
      · rw [except_bind_ok] at h
        obtain ⟨⟨e, ps1⟩, h1, h⟩ := h
        obtain ⟨he, hwf1⟩ := ih1 hwf h1
        exact ih13 hwf1 (by rw [exprsOK_append]; simp [exprsOK, hvs, he]) h
    · -- parse_expression_nested_block
      intro ps e ps2 hwf h
      rw [parse_expression_nested_block, except_bind_ok] at h
      obtain ⟨⟨t, ps1⟩, h1, h⟩ := h
      have hwf1 := (WFT_expect hwf h1).1
      rw [except_bind_ok] at h
      obtain ⟨⟨parameters, ps3⟩, h2, h⟩ := h
      have hwf3 := parse_block_parameters_wf hwf1 h2
      rw [except_bind_ok] at h
      obtain ⟨⟨locals, ps4⟩, h3, h⟩ := h
      have hwf4 := parse_locals_wf hwf3 h3
      rw [except_bind_ok] at h
      obtain ⟨⟨body, ps5⟩, h4, h⟩ := h
      obtain ⟨hb, hwf5⟩ := ih18 hwf4 h4
      rw [except_bind_ok] at h
      obtain ⟨⟨t2, ps6⟩, h5, h⟩ := h
      have hwf6 := (WFT_expect hwf5 h5).1
      injection h with h6
      injection h6 with h7 h8
      subst h7
      subst h8
      exact ⟨by simpa [exprOK] using hb, hwf6⟩
    · -- parse_expression_nested_term
      intro ps e ps2 hwf h
      rw [parse_expression_nested_term, except_bind_ok] at h
      obtain ⟨⟨t, ps1⟩, h1, h⟩ := h
      have hwf1 := (WFT_expect hwf h1).1
      rw [except_bind_ok] at h
      obtain ⟨⟨e1, ps3⟩, h2, h⟩ := h
      obtain ⟨he1, hwf3⟩ := ih1 hwf1 h2
      rw [except_bind_ok] at h
      obtain ⟨⟨t2, ps4⟩, h3, h⟩ := h
      have hwf4 := (WFT_expect hwf3 h3).1
      injection h with h4
      injection h4 with h5 h6
      subst h5
      subst h6
      exact ⟨he1, hwf4⟩
    · -- parse_expression_pound
      intro ps e ps2 hwf h
      rw [parse_expression_pound, except_bind_ok] at h
      obtain ⟨⟨t, ps1⟩, h1, h⟩ := h
      have hwf1 := (WFT_expect hwf h1).1
      rw [except_bind_ok] at h
      obtain ⟨k, hk, h⟩ := h
      split at h
      · exact ih12 hwf1 h
      · exact symbol_ok hwf1 h
    · -- parse_expression_result
      intro ps e ps2 hwf h
      rw [parse_expression_result, except_bind_ok] at h
      obtain ⟨⟨t, ps1⟩, h1, h⟩ := h
      have hwf1 := (WFT_expect hwf h1).1
      rw [except_bind_ok] at h
      obtain ⟨⟨st, ps3⟩, h2, h⟩ := h
      obtain ⟨hst, hwf3⟩ := ih1 hwf1 h2
      injection h with h3
      injection h3 with h4 h5
      subst h4
      subst h5
      exact ⟨by simpa [exprOK] using hst, hwf3⟩
    · -- parse_body
      intro ps r ps2 hwf h
      rw [parse_body] at h
      exact ih19 hwf (show exprsOK [] = true from rfl) h
    · -- body_loop
      intro acc ps r ps2 hwf hacc h
      rw [body_loop, except_bind_ok] at h
      obtain ⟨k, hk, h⟩ := h
      split at h
      · injection h with h3
        injection h3 with h4 h5
        subst h4
        subst h5
        exact ⟨hacc, hwf⟩
      · injection h with h3
        injection h3 with h4 h5
        subst h4
        subst h5
        exact ⟨hacc, hwf⟩
      · simp only [] at h
        split at h
        · rw [except_bind_ok] at h
          obtain ⟨⟨e, ps1⟩, h1, h⟩ := h
          obtain ⟨he, hwf1⟩ := ih17 hwf h1
          rw [except_bind_ok] at h
          obtain ⟨k2, hk2, h⟩ := h
          split at h
          · rw [except_bind_ok] at h
            obtain ⟨⟨t, ps4⟩, h3, h⟩ := h
            rw [except_bind_ok] at h
            obtain ⟨ps5, h4, h⟩ := h
            injection h4 with h5
            subst h5
            exact ih19 (WFT_expect hwf1 h3).1
              (by rw [exprsOK_append]; simp [exprsOK, hacc, he]) h
          · rw [except_bind_ok] at h
            obtain ⟨ps5, h4, h⟩ := h
            injection h4 with h5
            subst h5
            exact ih19 hwf1
              (by rw [exprsOK_append]; simp [exprsOK, hacc, he]) h
        · rw [except_bind_ok] at h
          obtain ⟨⟨e, ps1⟩, h1, h⟩ := h
          obtain ⟨he, hwf1⟩ := ih1 hwf h1
          rw [except_bind_ok] at h
          obtain ⟨k2, hk2, h⟩ := h
          split at h
          · rw [except_bind_ok] at h
            obtain ⟨⟨t, ps4⟩, h3, h⟩ := h
            rw [except_bind_ok] at h
            obtain ⟨ps5, h4, h⟩ := h
            injection h4 with h5
            subst h5
            exact ih19 (WFT_expect hwf1 h3).1
              (by rw [exprsOK_append]; simp [exprsOK, hacc, he]) h
          · rw [except_bind_ok] at h
            obtain ⟨ps5, h4, h⟩ := h
            injection h4 with h5
            subst h5
            exact ih19 hwf1
              (by rw [exprsOK_append]; simp [exprsOK, hacc, he]) h


theorem except_ok_bind {A B C : Type} (a : A) (f : A → Except C B) :
    ((Except.ok a : Except C A) >>= f) = f a := rfl

/-- Token stream of the class source `Hello = (foo = ( . ))`: inside the
method body, statement parsing reaches a `)` token, which no arm of
`parse_expression_primary` accepts. -/
def c3_unreachable_tokens : List Token :=
  [⟨.Identifier, some "Hello", ⟨1, 0⟩⟩, ⟨.Equal, none, ⟨1, 6⟩⟩,
   ⟨.NewTerm, none, ⟨1, 8⟩⟩, ⟨.Identifier, some "foo", ⟨1, 10⟩⟩,
   ⟨.Equal, none, ⟨1, 14⟩⟩, ⟨.NewTerm, none, ⟨1, 16⟩⟩,
   ⟨.Period, none, ⟨1, 18⟩⟩, ⟨.EndTerm, none, ⟨1, 20⟩⟩,
   ⟨.EndTerm, none, ⟨1, 22⟩⟩]

/-- Token stream of `T = ( run = ( 99999999999999999999 ) )`: the integer
literal exceeds `i64::MAX`, so `text.parse::<i64>().unwrap()` panics. -/
def c3_overflow_tokens : List Token :=
  [⟨.Identifier, some "T", ⟨1, 0⟩⟩, ⟨.Equal, none, ⟨1, 2⟩⟩,
   ⟨.NewTerm, none, ⟨1, 4⟩⟩,
   ⟨.Identifier, some "run", ⟨2, 0⟩⟩, ⟨.Equal, none, ⟨2, 4⟩⟩,
   ⟨.NewTerm, none, ⟨2, 6⟩⟩,
   ⟨.Integer, some "99999999999999999999", ⟨2, 8⟩⟩,
   ⟨.EndTerm, none, ⟨2, 30⟩⟩,
   ⟨.EndTerm, none, ⟨3, 0⟩⟩]

/-- C3: the claim that `Parser::parse` is total — every token sequence
yields either a `Class` AST or a located parse error — is refuted by the
code: two concrete token streams make it abort instead.  The first reaches
the `unreachable!("Unknown expression token: ...")` arm of
`parse_expression_primary` (a `)` where an expression must start); the
second reaches the `.parse::<i64>().unwrap()` panic of
`parse_expression_number` on an out-of-range integer literal.  In the
embedding both aborts surface as the `PError.Panic` constructor, which
carries the Rust panic message and is distinct from every
`PError.ParseError` value. -/
theorem parser_parse_panics_counterexample :
    parse 20 (Parser.new c3_unreachable_tokens "test") =
      .error (.Panic "internal error: entered unreachable code: Unknown expression token") ∧
    parse 30 (Parser.new c3_overflow_tokens "test") =
      .error (.Panic "ParseIntError: number too large to fit in target type") :=
  ⟨rfl, rfl⟩

/-- C9: `parse_expression_assignment` builds `Assignment` nodes exactly for
bare-`Variable` left-hand sides, and rejects every other left-hand side
after the fact.  Conjunct 1: any successful run consumed a `:=` token and
produced `Assignment name right` where `left = Variable name` and `right`
is the following full `parse_expression` (so a chained assignment nests the
inner assignment on the right).  Conjunct 2: whenever the next token is
`:=` but the already-parsed left-hand side is not a `Variable`, the result
is the located "Attempt to assign result of expression to something other
than a variable" error — the check happens after the left expression was
parsed, not by grammar restriction.  Conjuncts 3 and 4 instantiate both
behaviours: `a := b := 'test'.` parses to
`Assignment "a" (Assignment "b" (LiteralString "test"))`, and the
statement `1 := 'test'.` fails with that error at line 1 column 2. -/
theorem parser_assignment_characterization :
    (∀ (fuel : Nat) (left : Expression) (ps : Parser) (e : Expression)
      (ps2 : Parser), parse_expression_assignment fuel left ps = .ok (e, ps2) →
      ∃ name right tok ps1, left = .Variable name ∧ e = .Assignment name right ∧
        expect_token .Assign ps = .ok (tok, ps1) ∧
        parse_expression (fuel - 1) ps1 = .ok (right, ps2)) ∧
    (∀ (fuel : Nat) (left : Expression) (ps : Parser) (tok : Token)
      (ps1 : Parser), (∀ name, left ≠ .Variable name) →
      expect_token .Assign ps = .ok (tok, ps1) →
      parse_expression_assignment (fuel + 1) left ps =
        .error (.ParseError
          "Attempt to assign result of expression to something other than a variable"
          ps1.filename tok.location)) ∧
    parse_expression 10 (Parser.new
      [⟨.Identifier, some "a", ⟨1, 0⟩⟩, ⟨.Assign, none, ⟨1, 2⟩⟩,
       ⟨.Identifier, some "b", ⟨1, 5⟩⟩, ⟨.Assign, none, ⟨1, 7⟩⟩,
       ⟨.String, some "test", ⟨1, 10⟩⟩, ⟨.Period, none, ⟨1, 16⟩⟩] "t") =
      .ok (.Assignment "a" (.Assignment "b" (.LiteralString "test")),
        ⟨[⟨.Period, none, ⟨1, 16⟩⟩], "t", ⟨1, 10⟩⟩) ∧
    parse_body 10 (Parser.new
      [⟨.Integer, some "1", ⟨1, 0⟩⟩, ⟨.Assign, none, ⟨1, 2⟩⟩,
       ⟨.String, some "test", ⟨1, 5⟩⟩, ⟨.Period, none, ⟨1, 12⟩⟩] "t") =
      .error (.ParseError
        "Attempt to assign result of expression to something other than a variable"
        "t" ⟨1, 2⟩) := by
  refine ⟨?_, ?_, rfl, rfl⟩
  · intro fuel left ps e ps2 h
    match fuel with
    | 0 => exact Except.noConfusion h
    | fuel + 1 =>
      rw [parse_expression_assignment, except_bind_ok] at h
      obtain ⟨⟨tok, ps1⟩, h1, h⟩ := h
      split at h
      next tok2 ps3 heq =>
        injection heq with he1 he2
        subst he1
        subst he2
        split at h
        · rw [except_bind_ok] at h
          obtain ⟨⟨right, ps4⟩, h2, h⟩ := h
          injection h with h3
          injection h3 with h4 h5
          subst h4
          subst h5
          exact ⟨_, _, _, _, rfl, rfl, h1, by simpa using h2⟩
        · exact Except.noConfusion h
  · intro fuel left ps tok ps1 hne hexp
    rw [parse_expression_assignment, hexp, except_ok_bind]
    cases left <;> first | exact absurd rfl (hne _) | rfl

/-- Witness for C9: instantiating the non-variable conjunct at the parsed
left-hand side `1` (a `LiteralInteger`, not a `Variable`) with a `:=` token
at line 1 column 2 yields the located error. -/
theorem parser_assignment_characterization_witness :
    parse_expression_assignment 5 (.LiteralInteger 1)
      (Parser.new [⟨.Assign, none, ⟨1, 2⟩⟩] "t") =
      .error (.ParseError
        "Attempt to assign result of expression to something other than a variable"
        "t" ⟨1, 2⟩) :=
  parser_assignment_characterization.2.1 4 (.LiteralInteger 1)
    (Parser.new [⟨.Assign, none, ⟨1, 2⟩⟩] "t") ⟨.Assign, none, ⟨1, 2⟩⟩
    ⟨[], "t", ⟨1, 2⟩⟩ (fun name h => Expression.noConfusion h) rfl

/-- C10: on token streams whose `Keyword` tokens each carry exactly one
trailing colon (which is how the lexer produces them), every expression the
parser returns satisfies `exprOK`: each `KeywordMessage` node anywhere in it
has a selector whose colon count equals the number of argument expressions,
and at least one argument — so the selector concatenates one colon-terminated
keyword part per argument, and is never empty.  The second conjunct shows the
arguments are parsed as formulas, not as keyword sends: `1 with: 2 and: 3`
flattens into a single `KeywordMessage` with selector `"with:and:"` and
arguments `[2, 3]`, rather than nesting a keyword send as the first
argument. -/
theorem parser_keyword_message_arity :
    (∀ (fuel : Nat) (ps : Parser) (e : Expression) (ps2 : Parser), WFT ps →
      parse_expression fuel ps = .ok (e, ps2) → exprOK e = true) ∧
    parse_expression 10 (Parser.new
      [⟨.Integer, some "1", ⟨1, 0⟩⟩, ⟨.Keyword, some "with:", ⟨1, 2⟩⟩,
       ⟨.Integer, some "2", ⟨1, 8⟩⟩, ⟨.Keyword, some "and:", ⟨1, 10⟩⟩,
       ⟨.Integer, some "3", ⟨1, 15⟩⟩, ⟨.Period, none, ⟨1, 16⟩⟩] "t") =
      .ok (.KeywordMessage "with:and:" (.LiteralInteger 1)
        [.LiteralInteger 2, .LiteralInteger 3],
        ⟨[⟨.Period, none, ⟨1, 16⟩⟩], "t", ⟨1, 15⟩⟩) :=
  ⟨fun fuel ps e ps2 hwf h => ((parser_invariant fuel).1 hwf h).1, rfl⟩

/-- Witness for C10: the invariant applied to the concrete parse of
`1 with: 2 and: 3` — the wellformedness hypothesis holds by evaluation, and
the resulting `KeywordMessage` passes `exprOK` (selector `"with:and:"` has
two colons for its two arguments). -/
theorem parser_keyword_message_arity_witness :
    exprOK (.KeywordMessage "with:and:" (.LiteralInteger 1)
      [.LiteralInteger 2, .LiteralInteger 3]) = true :=
  parser_keyword_message_arity.1 10 (Parser.new
      [⟨.Integer, some "1", ⟨1, 0⟩⟩, ⟨.Keyword, some "with:", ⟨1, 2⟩⟩,
       ⟨.Integer, some "2", ⟨1, 8⟩⟩, ⟨.Keyword, some "and:", ⟨1, 10⟩⟩,
       ⟨.Integer, some "3", ⟨1, 15⟩⟩, ⟨.Period, none, ⟨1, 16⟩⟩] "t") _ _
    rfl parser_keyword_message_arity.2

end SomRs
